import Mathlib

/-!
Verification of the loyalty/pricing core of the exclusivity-platform
repository (`apps/backend/routes/services/loyalty/*.py` and
`apps/backend/routes/services/pricing/*.py`).

Embedding conventions:
* Python `Decimal` values are embedded as exact rationals (`ℚ`).  The source
  computes internally at the full precision of its inputs and only quantizes
  at explicit `quantize` calls (`_q2`, `_q4`), which are embedded as explicit
  rounding functions below.
* Python `int` is `ℤ`; `int(x)` on a `Decimal` truncates toward zero.
* Python sets of strings are embedded as duplicate-free lists in insertion
  order; `sorted(list(s))` is an order-by-`≤` sort of that list.
* Python `sorted` is a stable sort; it is embedded as `List.insertionSort`,
  which is stable with the same tie-breaking (earlier elements first).
* Display-only fields that no computation ever reads (tier `name`, `perks`,
  event `reason`, labels, disclosure copy, `notes`, the `explanation`
  payloads) are omitted.  Of the opaque event `meta` bag only the
  `"eligible_spend"` entry is ever read back (for refund proration), so
  `meta` is embedded as that single optional entry.
* `created_at` on events built by the allocator defaults to the wall clock
  in the source; it is opaque to every verified property and embedded as a
  fixed string.
-/

namespace Exclusivity

/-- `Decimal.to_integral_value(rounding=ROUND_HALF_UP)`: nearest integer,
ties away from zero. -/
def roundHalfUp (q : ℚ) : ℤ :=
  if 0 ≤ q then ⌊q + 1 / 2⌋ else -⌊-q + 1 / 2⌋

/-- Python `int()` on a `Decimal`: truncation toward zero. -/
def truncInt (q : ℚ) : ℤ :=
  if q < 0 then -⌊-q⌋ else ⌊q⌋

/-- `_q2`: quantize to 2 decimal places, ROUND_HALF_UP. -/
def q2 (x : ℚ) : ℚ := (roundHalfUp (x * 100) : ℚ) / 100

/-- `_q4`: quantize to 4 decimal places, ROUND_HALF_UP. -/
def q4 (x : ℚ) : ℚ := (roundHalfUp (x * 10000) : ℚ) / 10000

/-- Python compares strings lexicographically by code points.  Lean's
`String.lt` is the same relation (`s.data < t.data`), but its `Decidable`
instance is built on byte iterators and does not evaluate by reduction, so
the embedding states the order directly on the character lists. -/
def strLt (a b : String) : Prop := a.data < b.data

/-- Code-point order, non-strict: `a <= b` on Python strings. -/
def strLe (a b : String) : Prop := a.data ≤ b.data

instance : DecidableRel strLt := fun a b => by unfold strLt; infer_instance

instance : DecidableRel strLe := fun a b => by unfold strLe; infer_instance

theorem String.data_inj {a b : String} (h : a.data = b.data) : a = b := by
  cases a; cases b; exact congrArg String.mk h

/-! ## Points Ledger (`points_ledger.py`) -/

/-- The one entry of the opaque `meta` bag that is ever read back
(`rewards_allocator.allocate_refund_adjustment` parses
`meta["eligible_spend"]`); `none` models both a missing key and a value
`Decimal` fails to parse. -/
structure EventMeta where
  eligible_spend : Option ℚ
  deriving DecidableEq

/-- `LedgerEvent`: immutable event record. -/
structure LedgerEvent where
  event_id : String
  member_ref : String
  event_type : String
  points_delta : ℤ
  idempotency_key : Option String
  related_ref : Option String
  related_line_ref : Option String
  created_at : String
  meta : EventMeta
  deriving DecidableEq

/-- `LedgerState`: computed state from a set of events. -/
structure LedgerState where
  member_ref : String
  points_balance : ℤ
  total_earned : ℤ
  total_spent_or_removed : ℤ
  applied_event_ids : List String
  applied_idempotency_keys : List String
  deriving DecidableEq

/-- The running accumulator of `PointsLedger.reduce`'s event loop.  The two
`applied_*` lists model the Python sets (duplicate-free, insertion order). -/
structure RState where
  balance : ℤ
  total_earned : ℤ
  total_removed : ℤ
  applied_ids : List String
  applied_idems : List String
  deriving DecidableEq

def RState.init : RState :=
  { balance := 0, total_earned := 0, total_removed := 0
    applied_ids := [], applied_idems := [] }

/-- The idempotency key of an event as the reducer's truthiness test
`if e.idempotency_key` sees it: `None` and `""` are falsy. -/
def truthyIdem (e : LedgerEvent) : Option String :=
  match e.idempotency_key with
  | some k => if k = "" then none else some k
  | none => none

/-- The reducer's duplicate-idempotency-key test
`e.idempotency_key and e.idempotency_key in applied_idem`. -/
def idemDup (s : RState) (e : LedgerEvent) : Bool :=
  match truthyIdem e with
  | some k => decide (k ∈ s.applied_idems)
  | none => false

/-- One iteration of the `reduce` loop body. -/
def applyEvent (member_ref : String) (s : RState) (e : LedgerEvent) : RState :=
  if e.member_ref ≠ member_ref then s
  else if e.event_id ∈ s.applied_ids then s
  else if idemDup s e = true then s
  else
    { balance := s.balance + e.points_delta
      total_earned := if 0 ≤ e.points_delta then s.total_earned + e.points_delta else s.total_earned
      total_removed := if 0 ≤ e.points_delta then s.total_removed else s.total_removed + (-e.points_delta)
      applied_ids := s.applied_ids ++ [e.event_id]
      applied_idems :=
        match truthyIdem e with
        | some k => s.applied_idems ++ [k]
        | none => s.applied_idems }

/-- The reducer's sort key `(created_at, event_id)`, as a total preorder. -/
def eventLE (a b : LedgerEvent) : Prop :=
  strLt a.created_at b.created_at
    ∨ (a.created_at = b.created_at ∧ strLe a.event_id b.event_id)

instance : DecidableRel eventLE := fun a b => by
  unfold eventLE; infer_instance

theorem eventLE_refl (a : LedgerEvent) : eventLE a a :=
  Or.inr ⟨rfl, le_refl _⟩

theorem eventLE_total (a b : LedgerEvent) : eventLE a b ∨ eventLE b a := by
  rcases lt_trichotomy a.created_at.data b.created_at.data with h | h | h
  · exact Or.inl (Or.inl h)
  · rcases le_total a.event_id.data b.event_id.data with h2 | h2
    · exact Or.inl (Or.inr ⟨String.data_inj h, h2⟩)
    · exact Or.inr (Or.inr ⟨(String.data_inj h).symm, h2⟩)
  · exact Or.inr (Or.inl h)

theorem eventLE_trans {a b c : LedgerEvent} (h1 : eventLE a b) (h2 : eventLE b c) :
    eventLE a c := by
  rcases h1 with h1 | ⟨h1, h1'⟩ <;> rcases h2 with h2 | ⟨h2, h2'⟩
  · exact Or.inl (lt_trans h1 h2)
  · exact Or.inl (h2 ▸ h1)
  · exact Or.inl (h1 ▸ h2)
  · exact Or.inr ⟨h1.trans h2, le_trans h1' h2'⟩

instance : IsTotal LedgerEvent eventLE := ⟨eventLE_total⟩

instance : IsTrans LedgerEvent eventLE := ⟨fun _ _ _ => eventLE_trans⟩

/-- The deterministic ordering `sorted(list(events), key=(created_at, event_id))`:
Python's sort is stable, as is insertion sort. -/
def orderEvents (events : List LedgerEvent) : List LedgerEvent :=
  List.insertionSort eventLE events

/-- `sorted(list(string_set))`. -/
def sortStrings (l : List String) : List String :=
  List.insertionSort strLe l

/-- The fold of the `reduce` loop over the ordered events. -/
def reduceFold (member_ref : String) (events : List LedgerEvent) : RState :=
  (orderEvents events).foldl (applyEvent member_ref) RState.init

/-- `PointsLedger.reduce`.  `allow_negative_balance` is the ledger's
constructor flag. -/
def PointsLedger.reduce (allow_negative_balance : Bool) (member_ref : String)
    (events : List LedgerEvent) : LedgerState :=
  let s := reduceFold member_ref events
  let balance := if allow_negative_balance = false ∧ s.balance < 0 then 0 else s.balance
  { member_ref := member_ref
    points_balance := balance
    total_earned := s.total_earned
    total_spent_or_removed := s.total_removed
    applied_event_ids := sortStrings s.applied_ids
    applied_idempotency_keys := sortStrings s.applied_idems }

/-- The events the reduce loop actually applies (does not skip), starting
from state `s`: the specification-level companion of the fold. -/
def appliedEvents (member_ref : String) : RState → List LedgerEvent → List LedgerEvent
  | _, [] => []
  | s, e :: es =>
    if e.member_ref ≠ member_ref ∨ e.event_id ∈ s.applied_ids ∨ idemDup s e = true then
      appliedEvents member_ref s es
    else
      e :: appliedEvents member_ref (applyEvent member_ref s e) es

/-- The condition under which the loop body leaves the state unchanged. -/
def skipCond (member_ref : String) (s : RState) (e : LedgerEvent) : Prop :=
  e.member_ref ≠ member_ref ∨ e.event_id ∈ s.applied_ids ∨ idemDup s e = true

instance (m : String) (s : RState) (e : LedgerEvent) : Decidable (skipCond m s e) := by
  unfold skipCond; infer_instance

theorem applyEvent_of_skip {m : String} {s : RState} {e : LedgerEvent}
    (h : skipCond m s e) : applyEvent m s e = s := by
  unfold applyEvent
  rcases h with h | h | h
  · simp [h]
  · by_cases hm : e.member_ref ≠ m <;> simp [hm, h]
  · by_cases hm : e.member_ref ≠ m
    · simp [hm]
    · by_cases hid : e.event_id ∈ s.applied_ids <;> simp [hm, hid, h]

theorem applyEvent_of_not_skip {m : String} {s : RState} {e : LedgerEvent}
    (h : ¬ skipCond m s e) :
    applyEvent m s e =
      { balance := s.balance + e.points_delta
        total_earned := if 0 ≤ e.points_delta then s.total_earned + e.points_delta else s.total_earned
        total_removed := if 0 ≤ e.points_delta then s.total_removed else s.total_removed + (-e.points_delta)
        applied_ids := s.applied_ids ++ [e.event_id]
        applied_idems :=
          match truthyIdem e with
          | some k => s.applied_idems ++ [k]
          | none => s.applied_idems } := by
  unfold skipCond at h
  push_neg at h
  unfold applyEvent
  simp [h.1, h.2.1, h.2.2]

theorem appliedEvents_cons (m : String) (s : RState) (e : LedgerEvent)
    (l : List LedgerEvent) :
    appliedEvents m s (e :: l)
      = if skipCond m s e then appliedEvents m s l
        else e :: appliedEvents m (applyEvent m s e) l := rfl

theorem appliedEvents_cons_skip {m : String} {s : RState} {e : LedgerEvent}
    (l : List LedgerEvent) (h : skipCond m s e) :
    appliedEvents m s (e :: l) = appliedEvents m s l := by
  rw [appliedEvents_cons, if_pos h]

theorem appliedEvents_cons_apply {m : String} {s : RState} {e : LedgerEvent}
    (l : List LedgerEvent) (h : ¬ skipCond m s e) :
    appliedEvents m s (e :: l) = e :: appliedEvents m (applyEvent m s e) l := by
  rw [appliedEvents_cons, if_neg h]

/-- Along the fold, `balance` grows by exactly the signed sum of the applied
events' deltas. -/
theorem foldl_balance (m : String) :
    ∀ (l : List LedgerEvent) (s : RState),
      (l.foldl (applyEvent m) s).balance
        = s.balance + ((appliedEvents m s l).map (·.points_delta)).sum := by
  intro l
  induction l with
  | nil => intro s; simp [appliedEvents]
  | cons e l ih =>
    intro s
    by_cases h : skipCond m s e
    · rw [List.foldl_cons, applyEvent_of_skip h, appliedEvents_cons_skip l h]
      exact ih s
    · rw [List.foldl_cons, appliedEvents_cons_apply l h, ih (applyEvent m s e),
        applyEvent_of_not_skip h]
      simp
      ring

/-- Along the fold, `total_earned - total_removed` moves in lockstep with
`balance`. -/
theorem foldl_earned_sub_removed (m : String) :
    ∀ (l : List LedgerEvent) (s : RState),
      (l.foldl (applyEvent m) s).total_earned - (l.foldl (applyEvent m) s).total_removed
          - (l.foldl (applyEvent m) s).balance
        = s.total_earned - s.total_removed - s.balance := by
  intro l
  induction l with
  | nil => intro s; simp
  | cons e l ih =>
    intro s
    rw [List.foldl_cons, ih (applyEvent m s e)]
    by_cases h : skipCond m s e
    · rw [applyEvent_of_skip h]
    · rw [applyEvent_of_not_skip h]
      by_cases hd : 0 ≤ e.points_delta <;> simp [hd] <;> ring

theorem foldl_earned_le (m : String) :
    ∀ (l : List LedgerEvent) (s : RState),
      s.total_earned ≤ (l.foldl (applyEvent m) s).total_earned := by
  intro l
  induction l with
  | nil => intro s; simp
  | cons e l ih =>
    intro s
    rw [List.foldl_cons]
    refine le_trans ?_ (ih (applyEvent m s e))
    by_cases h : skipCond m s e
    · rw [applyEvent_of_skip h]
    · rw [applyEvent_of_not_skip h]
      by_cases hd : 0 ≤ e.points_delta
      · simp [hd]
      · simp [hd]

theorem foldl_removed_le (m : String) :
    ∀ (l : List LedgerEvent) (s : RState),
      s.total_removed ≤ (l.foldl (applyEvent m) s).total_removed := by
  intro l
  induction l with
  | nil => intro s; simp
  | cons e l ih =>
    intro s
    rw [List.foldl_cons]
    refine le_trans ?_ (ih (applyEvent m s e))
    by_cases h : skipCond m s e
    · rw [applyEvent_of_skip h]
    · rw [applyEvent_of_not_skip h]
      by_cases hd : 0 ≤ e.points_delta
      · simp [hd]
      · simp [hd]
        omega

theorem reduce_points_balance (allow_negative_balance : Bool) (m : String)
    (events : List LedgerEvent) :
    (PointsLedger.reduce allow_negative_balance m events).points_balance
      = if allow_negative_balance = false ∧ (reduceFold m events).balance < 0
        then 0 else (reduceFold m events).balance := rfl

theorem reduce_total_earned (allow_negative_balance : Bool) (m : String)
    (events : List LedgerEvent) :
    (PointsLedger.reduce allow_negative_balance m events).total_earned
      = (reduceFold m events).total_earned := rfl

theorem reduce_total_removed (allow_negative_balance : Bool) (m : String)
    (events : List LedgerEvent) :
    (PointsLedger.reduce allow_negative_balance m events).total_spent_or_removed
      = (reduceFold m events).total_removed := rfl

/-- Claim C4: with `allow_negative_balance = false`, the reduced balance is
never negative; when the accumulated signed sum of applied deltas (the raw
fold balance) is negative the returned balance is exactly 0; and no event is
"rejected" by the floor: the rollup totals and the applied id/key sets are
exactly those of the unclamped (`allow_negative_balance = true`) reduction. -/
theorem reduce_nonneg_floor (m : String) (events : List LedgerEvent) :
    0 ≤ (PointsLedger.reduce false m events).points_balance
    ∧ ((reduceFold m events).balance < 0 →
        (PointsLedger.reduce false m events).points_balance = 0)
    ∧ (PointsLedger.reduce false m events).total_earned
        = (PointsLedger.reduce true m events).total_earned
    ∧ (PointsLedger.reduce false m events).total_spent_or_removed
        = (PointsLedger.reduce true m events).total_spent_or_removed
    ∧ (PointsLedger.reduce false m events).applied_event_ids
        = (PointsLedger.reduce true m events).applied_event_ids
    ∧ (PointsLedger.reduce false m events).applied_idempotency_keys
        = (PointsLedger.reduce true m events).applied_idempotency_keys := by
  refine ⟨?_, ?_, rfl, rfl, rfl, rfl⟩
  · rw [reduce_points_balance]
    by_cases h : (reduceFold m events).balance < 0
    · simp [h]
    · simp [h]; omega
  · intro h
    rw [reduce_points_balance]
    simp [h]

/-- Witness for `reduce_nonneg_floor`: a lone removal event drives the raw
sum to -5, and the reduced balance is clamped to exactly 0. -/
theorem reduce_nonneg_floor_witness :
    (reduceFold "m"
        [{ event_id := "r1", member_ref := "m", event_type := "refund", points_delta := -5,
           idempotency_key := none, related_ref := none, related_line_ref := none,
           created_at := "t1", meta := { eligible_spend := none } }]).balance < 0
    ∧ (PointsLedger.reduce false "m"
        [{ event_id := "r1", member_ref := "m", event_type := "refund", points_delta := -5,
           idempotency_key := none, related_ref := none, related_line_ref := none,
           created_at := "t1", meta := { eligible_spend := none } }]).points_balance = 0 :=
  ⟨by decide,
   (reduce_nonneg_floor "m"
      [{ event_id := "r1", member_ref := "m", event_type := "refund", points_delta := -5,
         idempotency_key := none, related_ref := none, related_line_ref := none,
         created_at := "t1", meta := { eligible_spend := none } }]).2.1 (by decide)⟩

/-- Claim C10: the reduce rollups. `total_earned - total_spent_or_removed`
equals the signed sum of the applied (non-skipped) events' deltas;
`points_balance` equals that sum except when the flag is false and the sum is
negative, in which case it is 0; and the totals themselves are non-negative
(never clamped). -/
theorem reduce_rollup (allow_negative_balance : Bool) (m : String)
    (events : List LedgerEvent) :
    (PointsLedger.reduce allow_negative_balance m events).total_earned
        - (PointsLedger.reduce allow_negative_balance m events).total_spent_or_removed
      = ((appliedEvents m RState.init (orderEvents events)).map (·.points_delta)).sum
    ∧ (PointsLedger.reduce allow_negative_balance m events).points_balance
      = (if allow_negative_balance = true
            ∨ 0 ≤ ((appliedEvents m RState.init (orderEvents events)).map (·.points_delta)).sum
         then ((appliedEvents m RState.init (orderEvents events)).map (·.points_delta)).sum
         else 0)
    ∧ 0 ≤ (PointsLedger.reduce allow_negative_balance m events).total_earned
    ∧ 0 ≤ (PointsLedger.reduce allow_negative_balance m events).total_spent_or_removed := by
  have hbal : (reduceFold m events).balance
      = ((appliedEvents m RState.init (orderEvents events)).map (·.points_delta)).sum := by
    have h := foldl_balance m (orderEvents events) RState.init
    simpa [reduceFold, RState.init] using h
  have hdiff : (reduceFold m events).total_earned - (reduceFold m events).total_removed
      = (reduceFold m events).balance := by
    have h := foldl_earned_sub_removed m (orderEvents events) RState.init
    simp only [reduceFold, RState.init] at h ⊢
    omega
  have hearn : 0 ≤ (reduceFold m events).total_earned := by
    have h := foldl_earned_le m (orderEvents events) RState.init
    simp only [reduceFold, RState.init] at h ⊢
    omega
  have hrem : 0 ≤ (reduceFold m events).total_removed := by
    have h := foldl_removed_le m (orderEvents events) RState.init
    simp only [reduceFold, RState.init] at h ⊢
    omega
  rw [reduce_total_earned, reduce_total_removed, reduce_points_balance, ← hbal]
  refine ⟨by omega, ?_, hearn, hrem⟩
  rcases allow_negative_balance with _ | _
  · by_cases h : (reduceFold m events).balance < 0
    · simp [h, not_le.mpr h]
    · simp [h, not_lt.mp h]
  · simp

/-! ### Stable-sort reasoning for replay idempotency

Python's `sorted` is stable.  To reason about `sorted(es + ds)` we factor the
(equally stable) insertion sort of a concatenation through a stable merge that
prefers the left list on ties. -/

/-- Stable merge of two key-ordered lists; ties prefer the left list. -/
def mergeOrdered : List LedgerEvent → List LedgerEvent → List LedgerEvent
  | [], ys => ys
  | xs, [] => xs
  | x :: xs, y :: ys =>
    if eventLE x y then x :: mergeOrdered xs (y :: ys) else y :: mergeOrdered (x :: xs) ys

theorem mergeOrdered_nil_left (ys : List LedgerEvent) : mergeOrdered [] ys = ys := by
  cases ys <;> simp [mergeOrdered]

theorem mergeOrdered_nil_right (xs : List LedgerEvent) : mergeOrdered xs [] = xs := by
  cases xs <;> simp [mergeOrdered]

theorem mergeOrdered_cons_cons (x y : LedgerEvent) (xs ys : List LedgerEvent) :
    mergeOrdered (x :: xs) (y :: ys)
      = if eventLE x y then x :: mergeOrdered xs (y :: ys)
        else y :: mergeOrdered (x :: xs) ys := by
  simp [mergeOrdered]

/-- Inserting into a stable merge is inserting into the left list: the
insertion-sort analogue of merge stability. -/
theorem orderedInsert_mergeOrdered (a : LedgerEvent) :
    ∀ (X Y : List LedgerEvent),
      List.orderedInsert eventLE a (mergeOrdered X Y)
        = mergeOrdered (List.orderedInsert eventLE a X) Y := by
  intro X
  induction X with
  | nil =>
    intro Y
    rw [mergeOrdered_nil_left]
    induction Y with
    | nil => simp [mergeOrdered]
    | cons y Y' ihY =>
      by_cases hay : eventLE a y
      · simp [List.orderedInsert, mergeOrdered, hay]
      · simp only [List.orderedInsert, if_neg hay, List.orderedInsert_nil,
          mergeOrdered_cons_cons, ihY]
  | cons x X' ihX =>
    intro Y
    induction Y with
    | nil => rw [mergeOrdered_nil_right, mergeOrdered_nil_right]
    | cons y Y' ihY =>
      by_cases hxy : eventLE x y
      · rw [mergeOrdered_cons_cons, if_pos hxy]
        by_cases hax : eventLE a x
        · have hay : eventLE a y := eventLE_trans hax hxy
          simp only [List.orderedInsert, if_pos hax]
          rw [mergeOrdered_cons_cons, if_pos hay, mergeOrdered_cons_cons, if_pos hxy]
        · simp only [List.orderedInsert, if_neg hax]
          rw [mergeOrdered_cons_cons, if_pos hxy, ihX (y :: Y')]
      · rw [mergeOrdered_cons_cons, if_neg hxy]
        have hyx : eventLE y x := (eventLE_total x y).resolve_left hxy
        by_cases hay : eventLE a y
        · have hax : eventLE a x := eventLE_trans hay hyx
          simp only [List.orderedInsert, if_pos hay, if_pos hax]
          rw [mergeOrdered_cons_cons, if_pos hay, mergeOrdered_cons_cons, if_neg hxy]
        · simp only [List.orderedInsert, if_neg hay]
          rw [ihY]
          by_cases hax : eventLE a x
          · simp only [List.orderedInsert, if_pos hax]
            rw [mergeOrdered_cons_cons, if_neg hay]
          · simp only [List.orderedInsert, if_neg hax]
            rw [mergeOrdered_cons_cons, if_neg hxy]

/-- Insertion sort of a concatenation is the stable merge of the two sorted
halves. -/
theorem insertionSort_append (L1 L2 : List LedgerEvent) :
    List.insertionSort eventLE (L1 ++ L2)
      = mergeOrdered (List.insertionSort eventLE L1) (List.insertionSort eventLE L2) := by
  induction L1 with
  | nil => rw [List.nil_append, List.insertionSort, mergeOrdered_nil_left]
  | cons a L1 ih =>
    rw [List.cons_append, List.insertionSort, List.insertionSort, ih,
      orderedInsert_mergeOrdered]

/-! ### Once seen, always skipped -/

theorem applied_ids_subset (m : String) (s : RState) (e : LedgerEvent) :
    s.applied_ids ⊆ (applyEvent m s e).applied_ids := by
  by_cases h : skipCond m s e
  · rw [applyEvent_of_skip h]
    exact List.Subset.refl _
  · rw [applyEvent_of_not_skip h]
    exact List.subset_append_left _ _


theorem applied_idems_subset (m : String) (s : RState) (e : LedgerEvent) :
    s.applied_idems ⊆ (applyEvent m s e).applied_idems := by
  by_cases h : skipCond m s e
  · rw [applyEvent_of_skip h]
    exact List.Subset.refl _
  · rw [applyEvent_of_not_skip h]
    cases truthyIdem e <;> simp [List.subset_append_left]

theorem foldl_ids_subset (m : String) :
    ∀ (l : List LedgerEvent) (s : RState),
      s.applied_ids ⊆ (l.foldl (applyEvent m) s).applied_ids := by
  intro l
  induction l with
  | nil => intro s; simp
  | cons e l ih =>
    intro s
    rw [List.foldl_cons]
    exact (applied_ids_subset m s e).trans (ih _)

theorem foldl_idems_subset (m : String) :
    ∀ (l : List LedgerEvent) (s : RState),
      s.applied_idems ⊆ (l.foldl (applyEvent m) s).applied_idems := by
  intro l
  induction l with
  | nil => intro s; simp
  | cons e l ih =>
    intro s
    rw [List.foldl_cons]
    exact (applied_idems_subset m s e).trans (ih _)

theorem idemDup_mono {s s' : RState} (e : LedgerEvent)
    (h : s.applied_idems ⊆ s'.applied_idems) (hd : idemDup s e = true) :
    idemDup s' e = true := by
  unfold idemDup at *
  cases htk : truthyIdem e with
  | none => rw [htk] at hd; exact absurd hd (by simp)
  | some k =>
    rw [htk] at hd
    simp only [decide_eq_true_eq] at hd ⊢
    exact h hd

theorem skipCond_mono {m : String} {s s' : RState} {e : LedgerEvent}
    (hids : s.applied_ids ⊆ s'.applied_ids)
    (hidems : s.applied_idems ⊆ s'.applied_idems)
    (h : skipCond m s e) : skipCond m s' e := by
  rcases h with h | h | h
  · exact Or.inl h
  · exact Or.inr (Or.inl (hids h))
  · exact Or.inr (Or.inr (idemDup_mono e hidems h))

theorem skipCond_after_self (m : String) (s : RState) (e : LedgerEvent) :
    skipCond m (applyEvent m s e) e := by
  by_cases h : skipCond m s e
  · exact skipCond_mono (applied_ids_subset m s e) (applied_idems_subset m s e) h
  · rw [applyEvent_of_not_skip h]
    exact Or.inr (Or.inl (by simp))

theorem skipCond_foldl_of_mem (m : String) :
    ∀ (l : List LedgerEvent) (s : RState) (e : LedgerEvent), e ∈ l →
      skipCond m (l.foldl (applyEvent m) s) e := by
  intro l
  induction l with
  | nil => intro s e he; exact absurd he (List.not_mem_nil e)
  | cons x l ih =>
    intro s e he
    rw [List.foldl_cons]
    rcases List.mem_cons.mp he with rfl | he'
    · exact skipCond_mono (foldl_ids_subset m l _) (foldl_idems_subset m l _)
        (skipCond_after_self m s e)
    · exact ih _ e he'

theorem foldl_skip_all (m : String) :
    ∀ (l : List LedgerEvent) (s : RState), (∀ e ∈ l, skipCond m s e) →
      l.foldl (applyEvent m) s = s := by
  intro l
  induction l with
  | nil => intro s _; rfl
  | cons e l ih =>
    intro s h
    rw [List.foldl_cons, applyEvent_of_skip (h e (List.mem_cons_self e l))]
    exact ih s fun x hx => h x (List.mem_cons_of_mem e hx)

/-- Folding the reduce loop over a stable merge with a right list whose
events were all seen before (in the already-processed prefix or in the left
list) is the same as folding over the left list alone. -/
theorem mergeOrdered_foldl_noop (m : String) :
    ∀ (X Y pre : List LedgerEvent),
      List.Sorted eventLE X → List.Sorted eventLE Y →
      (∀ y ∈ Y, y ∈ pre ++ X) →
      (mergeOrdered X Y).foldl (applyEvent m) (pre.foldl (applyEvent m) RState.init)
        = X.foldl (applyEvent m) (pre.foldl (applyEvent m) RState.init) := by
  intro X
  induction X with
  | nil =>
    intro Y pre _ _ hmem
    rw [mergeOrdered_nil_left, List.foldl_nil]
    exact foldl_skip_all m Y _ fun y hy =>
      skipCond_foldl_of_mem m pre _ y (by simpa using hmem y hy)
  | cons x X' ihX =>
    intro Y
    induction Y with
    | nil => intro pre _ _ _; rw [mergeOrdered_nil_right]
    | cons y Y' ihY =>
      intro pre hX hY hmem
      by_cases hxy : eventLE x y
      · rw [mergeOrdered_cons_cons, if_pos hxy, List.foldl_cons, List.foldl_cons]
        have hstate : applyEvent m (pre.foldl (applyEvent m) RState.init) x
            = (pre ++ [x]).foldl (applyEvent m) RState.init := by
          rw [List.foldl_append, List.foldl_cons, List.foldl_nil]
        rw [hstate]
        refine ihX (y :: Y') (pre ++ [x]) hX.of_cons hY ?_
        intro z hz
        have hz' := hmem z hz
        simp only [List.mem_append, List.mem_cons] at hz' ⊢
        tauto
      · rw [mergeOrdered_cons_cons, if_neg hxy, List.foldl_cons]
        have hy_pre : y ∈ pre := by
          rcases List.mem_append.mp (hmem y (List.mem_cons_self y Y')) with h | h
          · exact h
          · exfalso
            apply hxy
            rcases List.mem_cons.mp h with rfl | h'
            · exact eventLE_refl _
            · exact List.rel_of_sorted_cons hX y h'
        rw [applyEvent_of_skip (skipCond_foldl_of_mem m pre _ y hy_pre)]
        exact ihY pre hX hY.of_cons fun z hz => hmem z (List.mem_cons_of_mem y hz)

/-- Claim C2 (amended): replaying events the ledger has already seen is a
no-op.  For any flag, member and lists `es`, `ds` where every event of `ds`
already occurs in `es` (in particular `ds = es`, the "same list twice" case),
`reduce` of `es ++ ds` equals `reduce` of `es`.  (An appended event that
merely repeats an idempotency key of `es` without being an event of `es` can
change the result — see the counterexample.) -/
theorem reduce_replay_noop (allow_negative_balance : Bool) (m : String)
    (es ds : List LedgerEvent) (h : ∀ d ∈ ds, d ∈ es) :
    PointsLedger.reduce allow_negative_balance m (es ++ ds)
      = PointsLedger.reduce allow_negative_balance m es := by
  have hfold : reduceFold m (es ++ ds) = reduceFold m es := by
    unfold reduceFold orderEvents
    rw [insertionSort_append]
    refine mergeOrdered_foldl_noop m (List.insertionSort eventLE es)
      (List.insertionSort eventLE ds) [] (List.sorted_insertionSort eventLE es)
      (List.sorted_insertionSort eventLE ds) ?_
    intro y hy
    have hyds : y ∈ ds := (List.perm_insertionSort eventLE ds).mem_iff.mp hy
    simpa using (List.perm_insertionSort eventLE es).mem_iff.mpr (h y hyds)
  unfold PointsLedger.reduce
  rw [hfold]

/-- Witness for `reduce_replay_noop`: a concrete one-event list replayed as
`es ++ es` reduces to the same state as a single application. -/
theorem reduce_replay_noop_witness :
    (∀ d ∈ [{ event_id := "a", member_ref := "m", event_type := "earn", points_delta := 5,
              idempotency_key := some "k", related_ref := none, related_line_ref := none,
              created_at := "t1", meta := { eligible_spend := none } : LedgerEvent }],
        d ∈ [{ event_id := "a", member_ref := "m", event_type := "earn", points_delta := 5,
               idempotency_key := some "k", related_ref := none, related_line_ref := none,
               created_at := "t1", meta := { eligible_spend := none } : LedgerEvent }])
    ∧ PointsLedger.reduce false "m"
        ([{ event_id := "a", member_ref := "m", event_type := "earn", points_delta := 5,
            idempotency_key := some "k", related_ref := none, related_line_ref := none,
            created_at := "t1", meta := { eligible_spend := none } }]
          ++ [{ event_id := "a", member_ref := "m", event_type := "earn", points_delta := 5,
                idempotency_key := some "k", related_ref := none, related_line_ref := none,
                created_at := "t1", meta := { eligible_spend := none } }])
      = PointsLedger.reduce false "m"
          [{ event_id := "a", member_ref := "m", event_type := "earn", points_delta := 5,
             idempotency_key := some "k", related_ref := none, related_line_ref := none,
             created_at := "t1", meta := { eligible_spend := none } }] :=
  ⟨by decide,
   reduce_replay_noop false "m"
     [{ event_id := "a", member_ref := "m", event_type := "earn", points_delta := 5,
        idempotency_key := some "k", related_ref := none, related_line_ref := none,
        created_at := "t1", meta := { eligible_spend := none } }]
     [{ event_id := "a", member_ref := "m", event_type := "earn", points_delta := 5,
        idempotency_key := some "k", related_ref := none, related_line_ref := none,
        created_at := "t1", meta := { eligible_spend := none } }]
     (by decide)⟩

/-- Counterexample to claim C2 as stated: extending a list with a new event
that duplicates an already-present idempotency key is NOT always a no-op.
The added event sorts earlier (`created_at` "t0" before "t2"), is applied
first, and the original event is then the one skipped, changing the state. -/
theorem reduce_idem_extension_changes :
    PointsLedger.reduce false "m"
        ([{ event_id := "a", member_ref := "m", event_type := "earn", points_delta := 5,
            idempotency_key := some "k", related_ref := none, related_line_ref := none,
            created_at := "t2", meta := { eligible_spend := none } }]
          ++ [{ event_id := "b", member_ref := "m", event_type := "earn", points_delta := 100,
                idempotency_key := some "k", related_ref := none, related_line_ref := none,
                created_at := "t0", meta := { eligible_spend := none } }])
      ≠ PointsLedger.reduce false "m"
          [{ event_id := "a", member_ref := "m", event_type := "earn", points_delta := 5,
             idempotency_key := some "k", related_ref := none, related_line_ref := none,
             created_at := "t2", meta := { eligible_spend := none } }] := by
  decide

/-! ## Loyalty Policy (`loyalty_policy.py`) -/

/-- Python `str.strip()`: drop leading and trailing whitespace.  (Lean's
`String.trim` is the same function but does not evaluate by reduction.) -/
def pyStrip (s : String) : String :=
  ⟨((s.data.dropWhile Char.isWhitespace).reverse.dropWhile Char.isWhitespace).reverse⟩

/-- A tier: threshold on lifetime spend.  The display-only `name` and
`perks` fields are omitted (no computation reads them). -/
structure Tier where
  key : String
  min_lifetime_spend : ℚ
  deriving DecidableEq

/-- `PointsRule`: canonical points valuation.  `rounding` is kept as the raw
string the source stores (validated to be "nearest" or "down"); the
display-only label fields are omitted. -/
structure PointsRule where
  points_per_currency_unit : ℚ
  earn_rate_of_eligible_spend : ℚ
  rounding : String
  points_expiry_days : Option ℤ
  deriving DecidableEq

/-- `LoyaltyPolicy`: the validated value object.  Display-only fields
(`notes`, disclosure copy) are omitted; `DisclosurePolicy.mode` is omitted
since no verified computation reads it. -/
structure LoyaltyPolicy where
  program_name : String
  currency : String
  tiers : List Tier
  points_rule : PointsRule
  allow_downgrades : Bool
  allow_negative_points_balance : Bool
  version : String
  deriving DecidableEq

def defaultPointsRule : PointsRule :=
  { points_per_currency_unit := 100
    earn_rate_of_eligible_spend := 2 / 100
    rounding := "nearest"
    points_expiry_days := none }

/-- `LoyaltyPolicy.default_tiers`. -/
def LoyaltyPolicy.default_tiers : List Tier :=
  [{ key := "bronze", min_lifetime_spend := 0 },
   { key := "silver", min_lifetime_spend := 500 },
   { key := "gold", min_lifetime_spend := 2000 },
   { key := "platinum", min_lifetime_spend := 7500 },
   { key := "black_label", min_lifetime_spend := 25000 }]

/-- The tier comparison `sorted(self.tiers, key=lambda t: t.min_lifetime_spend)`
sorts by (and the stable insertion sort mirrors Python's stable sort). -/
def tierLE (a b : Tier) : Prop := a.min_lifetime_spend ≤ b.min_lifetime_spend

instance : DecidableRel tierLE := fun a b => by unfold tierLE; infer_instance

instance : IsTotal Tier tierLE := ⟨fun a b => le_total a.min_lifetime_spend b.min_lifetime_spend⟩

instance : IsTrans Tier tierLE := ⟨fun _ _ _ h1 h2 => le_trans h1 h2⟩

def sortTiers (tiers : List Tier) : List Tier :=
  List.insertionSort tierLE tiers

/-- The per-tier checks of `_validate`'s loop over the sorted tiers, with the
`seen` key set threaded through. -/
def validateTiersLoop : List Tier → List String → Except String Unit
  | [], _ => Except.ok ()
  | t :: ts, seen =>
    if pyStrip t.key = "" then Except.error "tier.key cannot be empty"
    else if t.key ∈ seen then Except.error "duplicate tier key"
    else if t.min_lifetime_spend < 0 then
      Except.error "tier.min_lifetime_spend cannot be negative"
    else validateTiersLoop ts (t.key :: seen)

/-- `_validate`'s final check: `sorted_tiers[0].min_lifetime_spend != 0`
(the `[]` case models the `IndexError` that the earlier length check makes
unreachable). -/
def tiersHeadCheck : List Tier → Except String Unit
  | [] => Except.error "tiers must contain at least one tier"
  | t :: _ =>
    if t.min_lifetime_spend ≠ 0 then
      Except.error "first tier must have min_lifetime_spend = 0.00"
    else Except.ok ()

/-- `_validate`'s per-tier loop followed by the first-tier check. -/
def tiersCheck (p : LoyaltyPolicy) : Except String Unit :=
  match validateTiersLoop (sortTiers p.tiers) [] with
  | Except.error e => Except.error e
  | Except.ok _ => tiersHeadCheck (sortTiers p.tiers)

/-- `LoyaltyPolicy._validate`, run by `__post_init__` at construction;
`Except.error` models the raised `ValueError` (the spec's `InvalidPolicy`). -/
def LoyaltyPolicy.validate (p : LoyaltyPolicy) : Except String Unit :=
  if pyStrip p.program_name = "" then Except.error "program_name cannot be empty"
  else if pyStrip p.currency = "" then Except.error "currency cannot be empty"
  else if p.points_rule.points_per_currency_unit ≤ 0 then
    Except.error "points_per_currency_unit must be > 0"
  else if p.points_rule.earn_rate_of_eligible_spend < 0
      ∨ 1 ≤ p.points_rule.earn_rate_of_eligible_spend then
    Except.error "earn_rate_of_eligible_spend must be between 0 and < 1"
  else if ¬ (p.points_rule.rounding = "nearest" ∨ p.points_rule.rounding = "down") then
    Except.error "points rounding must be nearest or down"
  else if (match p.points_rule.points_expiry_days with
           | some d => decide (d ≤ 0)
           | none => false) = true then
    Except.error "points_expiry_days must be > 0 if set"
  else if p.tiers.length < 1 then Except.error "tiers must contain at least one tier"
  else tiersCheck p

/-- A raw tier entry as `from_dict` reads it: `t.get("key", "")` and
`_to_decimal(t.get("min_lifetime_spend"), 0.00)` (absent fields are `none`;
the display-only `name`/`perks` are omitted). -/
structure TierData where
  key : Option String
  min_lifetime_spend : Option ℚ
  deriving DecidableEq

/-- The loosely-typed map `LoyaltyPolicy.from_dict` reads, with the nested
`points_rule` / flag entries flattened into optional typed fields (an absent
key is `none`; the `str`/`_to_decimal` coercions of present values are
assumed already applied, which is what a typed model can express). -/
structure PolicyData where
  program_name : Option String
  currency : Option String
  tiers : List TierData
  points_per_currency_unit : Option ℚ
  earn_rate_of_eligible_spend : Option ℚ
  rounding : Option String
  points_expiry_days : Option ℤ
  allow_downgrades : Option Bool
  allow_negative_points_balance : Option Bool
  version : Option String
  deriving DecidableEq

/-- The policy value `from_dict` assembles before `__post_init__` validation:
defaults substituted for missing fields, tier keys stripped, the default tier
table substituted when the tier list is empty. -/
def fromDictPolicy (d : PolicyData) : LoyaltyPolicy :=
  let tiers := d.tiers.map fun t =>
    { key := pyStrip (t.key.getD ""), min_lifetime_spend := t.min_lifetime_spend.getD 0 : Tier }
  { program_name := d.program_name.getD "Exclusivity"
    currency := d.currency.getD "USD"
    tiers := if tiers.isEmpty then LoyaltyPolicy.default_tiers else tiers
    points_rule :=
      { points_per_currency_unit := d.points_per_currency_unit.getD 100
        earn_rate_of_eligible_spend := d.earn_rate_of_eligible_spend.getD (2 / 100)
        rounding := d.rounding.getD "nearest"
        points_expiry_days := d.points_expiry_days }
    allow_downgrades := d.allow_downgrades.getD false
    allow_negative_points_balance := d.allow_negative_points_balance.getD false
    version := d.version.getD "2025-12-14-canonical" }

/-- `LoyaltyPolicy.from_dict`: build the value object, then `__post_init__`
validates it (an empty tier list was already replaced by the defaults). -/
def LoyaltyPolicy.from_dict (d : PolicyData) : Except String LoyaltyPolicy :=
  match (fromDictPolicy d).validate with
  | Except.ok _ => Except.ok (fromDictPolicy d)
  | Except.error e => Except.error e

/-- `LoyaltyPolicy.points_for_eligible_spend`. -/
def LoyaltyPolicy.points_for_eligible_spend (p : LoyaltyPolicy) (eligible_spend : ℚ) : ℤ :=
  if eligible_spend ≤ 0 then 0
  else
    let rewards_value := eligible_spend * p.points_rule.earn_rate_of_eligible_spend
    let raw_points := rewards_value * p.points_rule.points_per_currency_unit
    let pts := if p.points_rule.rounding = "down" then ⌊raw_points⌋ else roundHalfUp raw_points
    if pts < 0 then 0 else pts

/-- The `for t in sorted_tiers` scan of `tier_for_lifetime_spend`: advance
`current` while the threshold is within `spend`, stop at the first that is
not. -/
def tierWalk (spend : ℚ) : Tier → List Tier → Tier
  | cur, [] => cur
  | cur, t :: ts => if t.min_lifetime_spend ≤ spend then tierWalk spend t ts else cur

/-- `LoyaltyPolicy.tier_for_lifetime_spend`: the source indexes
`sorted_tiers[0]` and so raises on an empty tier list (impossible for a
validated policy); `none` models that. -/
def LoyaltyPolicy.tier_for_lifetime_spend (p : LoyaltyPolicy) (lifetime_spend : ℚ) :
    Option Tier :=
  let spend := if lifetime_spend < 0 then 0 else lifetime_spend
  match sortTiers p.tiers with
  | [] => none
  | t :: ts => some (tierWalk spend t (t :: ts))

theorem tierWalk_start_le (s : ℚ) :
    ∀ (l : List Tier) (cur : Tier), List.Sorted tierLE l →
      (∀ u ∈ l, tierLE cur u) →
      cur.min_lifetime_spend ≤ (tierWalk s cur l).min_lifetime_spend := by
  intro l
  induction l with
  | nil => intro cur _ _; exact le_refl _
  | cons t ts ih =>
    intro cur hs hcur
    rw [tierWalk]
    by_cases ht : t.min_lifetime_spend ≤ s
    · rw [if_pos ht]
      exact le_trans (hcur t (List.mem_cons_self t ts))
        (ih t hs.of_cons fun u hu => List.rel_of_sorted_cons hs u hu)
    · rw [if_neg ht]

theorem tierWalk_mono {s1 s2 : ℚ} (h : s1 ≤ s2) :
    ∀ (l : List Tier) (cur : Tier), List.Sorted tierLE l →
      (∀ u ∈ l, tierLE cur u) →
      (tierWalk s1 cur l).min_lifetime_spend ≤ (tierWalk s2 cur l).min_lifetime_spend := by
  intro l
  induction l with
  | nil => intro cur _ _; exact le_refl _
  | cons t ts ih =>
    intro cur hs hcur
    rw [tierWalk, tierWalk]
    by_cases h1 : t.min_lifetime_spend ≤ s1
    · rw [if_pos h1, if_pos (le_trans h1 h)]
      exact ih t hs.of_cons fun u hu => List.rel_of_sorted_cons hs u hu
    · rw [if_neg h1]
      by_cases h2 : t.min_lifetime_spend ≤ s2
      · rw [if_pos h2]
        exact le_trans (hcur t (List.mem_cons_self t ts))
          (tierWalk_start_le s2 ts t hs.of_cons fun u hu => List.rel_of_sorted_cons hs u hu)
      · rw [if_neg h2]

/-- Claim C8: `tier_for_lifetime_spend` is monotone in lifetime spend — the
selected tier's threshold never decreases as spend grows. -/
theorem tier_for_lifetime_spend_mono (p : LoyaltyPolicy) (s1 s2 : ℚ) (h : s1 ≤ s2)
    (t1 t2 : Tier) (h1 : p.tier_for_lifetime_spend s1 = some t1)
    (h2 : p.tier_for_lifetime_spend s2 = some t2) :
    t1.min_lifetime_spend ≤ t2.min_lifetime_spend := by
  unfold LoyaltyPolicy.tier_for_lifetime_spend at h1 h2
  rcases hsort : sortTiers p.tiers with _ | ⟨t, ts⟩
  · rw [hsort] at h1
    exact absurd h1 (by simp)
  · rw [hsort] at h1 h2
    have hsorted : List.Sorted tierLE (t :: ts) := by
      rw [← hsort]
      exact List.sorted_insertionSort tierLE p.tiers
    have hcur : ∀ u ∈ t :: ts, tierLE t u := by
      intro u hu
      rcases List.mem_cons.mp hu with rfl | hu'
      · exact le_refl _
      · exact List.rel_of_sorted_cons hsorted u hu'
    have hclamp : (if s1 < 0 then 0 else s1) ≤ (if s2 < 0 then 0 else s2) := by
      by_cases c1 : s1 < 0 <;> by_cases c2 : s2 < 0 <;> simp [c1, c2] <;> linarith
    simp only [Option.some.injEq] at h1 h2
    rw [← h1, ← h2]
    exact tierWalk_mono hclamp (t :: ts) t hsorted hcur

/-- A concrete validated policy over the default tier table, used by the
witnesses below. -/
def defaultPolicy : LoyaltyPolicy :=
  { program_name := "Exclusivity", currency := "USD"
    tiers := LoyaltyPolicy.default_tiers, points_rule := defaultPointsRule
    allow_downgrades := false, allow_negative_points_balance := false
    version := "2025-12-14-canonical" }

/-- Witness for `tier_for_lifetime_spend_mono` on the default tier table:
spend 400 (bronze, threshold 0) against spend 600 (silver, threshold 500). -/
theorem tier_for_lifetime_spend_mono_witness :
    ((400 : ℚ) ≤ 600
      ∧ defaultPolicy.tier_for_lifetime_spend 400
          = some { key := "bronze", min_lifetime_spend := 0 }
      ∧ defaultPolicy.tier_for_lifetime_spend 600
          = some { key := "silver", min_lifetime_spend := 500 })
    ∧ (0 : ℚ) ≤ 500 :=
  ⟨⟨by norm_num, by decide, by decide⟩,
   tier_for_lifetime_spend_mono defaultPolicy 400 600 (by norm_num)
     { key := "bronze", min_lifetime_spend := 0 }
     { key := "silver", min_lifetime_spend := 500 } (by decide) (by decide)⟩

theorem validateTiersLoop_ok_iff :
    ∀ (l : List Tier) (seen : List String),
      validateTiersLoop l seen = Except.ok ()
        ↔ ((∀ t ∈ l, ¬ pyStrip t.key = "")
            ∧ (∀ t ∈ l, ¬ t.min_lifetime_spend < 0)
            ∧ (l.map Tier.key).Nodup
            ∧ ∀ t ∈ l, t.key ∉ seen) := by
  intro l
  induction l with
  | nil => intro seen; simp [validateTiersLoop]
  | cons t ts ih =>
    intro seen
    rw [validateTiersLoop]
    by_cases h1 : pyStrip t.key = ""
    · rw [if_pos h1]
      constructor
      · intro habs; exact absurd habs (by simp)
      · intro ⟨hk, _, _, _⟩; exact absurd h1 (hk t (List.mem_cons_self t ts))
    · rw [if_neg h1]
      by_cases h2 : t.key ∈ seen
      · rw [if_pos h2]
        constructor
        · intro habs; exact absurd habs (by simp)
        · intro ⟨_, _, _, hs⟩; exact absurd h2 (hs t (List.mem_cons_self t ts))
      · rw [if_neg h2]
        by_cases h3 : t.min_lifetime_spend < 0
        · rw [if_pos h3]
          constructor
          · intro habs; exact absurd habs (by simp)
          · intro ⟨_, hm, _, _⟩; exact absurd h3 (hm t (List.mem_cons_self t ts))
        · rw [if_neg h3]
          rw [ih (t.key :: seen)]
          constructor
          · rintro ⟨hk, hm, hnd, hs⟩
            refine ⟨List.forall_mem_cons.mpr ⟨h1, hk⟩, List.forall_mem_cons.mpr ⟨h3, hm⟩,
              ?_, List.forall_mem_cons.mpr
                ⟨h2, fun u hu hin => hs u hu (List.mem_cons_of_mem _ hin)⟩⟩
            rw [List.map_cons, List.nodup_cons]
            refine ⟨?_, hnd⟩
            intro hmem
            rcases List.mem_map.mp hmem with ⟨u, hu, hku⟩
            exact hs u hu (by rw [hku]; exact List.mem_cons_self _ _)
          · rintro ⟨hkall, hmall, hndall, hsall⟩
            rw [List.map_cons, List.nodup_cons] at hndall
            refine ⟨(List.forall_mem_cons.mp hkall).2, (List.forall_mem_cons.mp hmall).2,
              hndall.2, fun u hu hin => ?_⟩
            rcases List.mem_cons.mp hin with heq | hin2
            · exact hndall.1 (List.mem_map.mpr ⟨u, hu, heq⟩)
            · exact (List.forall_mem_cons.mp hsall).2 u hu hin2

/-- The construction-failure condition of `_validate` as the code implements
it, phrased over the policy's fields (tier conditions over the unsorted list;
the first-tier condition over the sorted list).  This is the claim's list of
conditions plus one the claim omits: a tier whose key strips to empty. -/
def validateFailCond (p : LoyaltyPolicy) : Prop :=
  pyStrip p.program_name = "" ∨ pyStrip p.currency = ""
  ∨ p.points_rule.points_per_currency_unit ≤ 0
  ∨ p.points_rule.earn_rate_of_eligible_spend < 0
  ∨ 1 ≤ p.points_rule.earn_rate_of_eligible_spend
  ∨ ¬ (p.points_rule.rounding = "nearest" ∨ p.points_rule.rounding = "down")
  ∨ (∃ d, p.points_rule.points_expiry_days = some d ∧ d ≤ 0)
  ∨ p.tiers.length < 1
  ∨ (∃ t ∈ p.tiers, pyStrip t.key = "")
  ∨ ¬ (p.tiers.map Tier.key).Nodup
  ∨ (∃ t ∈ p.tiers, t.min_lifetime_spend < 0)
  ∨ (sortTiers p.tiers).head?.map Tier.min_lifetime_spend ≠ some 0

/-- The failure condition exactly as claim C6 lists it (written from the
spec's words, for comparison with `validateFailCond`): it lacks the
empty-tier-key disjunct. -/
def claimedFailCond (p : LoyaltyPolicy) : Prop :=
  pyStrip p.program_name = "" ∨ pyStrip p.currency = ""
  ∨ p.points_rule.points_per_currency_unit ≤ 0
  ∨ p.points_rule.earn_rate_of_eligible_spend < 0
  ∨ 1 ≤ p.points_rule.earn_rate_of_eligible_spend
  ∨ ¬ (p.points_rule.rounding = "nearest" ∨ p.points_rule.rounding = "down")
  ∨ (∃ d, p.points_rule.points_expiry_days = some d ∧ d ≤ 0)
  ∨ p.tiers.length < 1
  ∨ ¬ (p.tiers.map Tier.key).Nodup
  ∨ (∃ t ∈ p.tiers, t.min_lifetime_spend < 0)
  ∨ (sortTiers p.tiers).head?.map Tier.min_lifetime_spend ≠ some 0

theorem validate_ok_iff (p : LoyaltyPolicy) :
    p.validate = Except.ok () ↔ ¬ validateFailCond p := by
  have hperm : List.Perm (sortTiers p.tiers) p.tiers := List.perm_insertionSort tierLE p.tiers
  have hmem : ∀ t : Tier, t ∈ sortTiers p.tiers ↔ t ∈ p.tiers := fun t => hperm.mem_iff
  have hnodup : ((sortTiers p.tiers).map Tier.key).Nodup ↔ (p.tiers.map Tier.key).Nodup :=
    (hperm.map Tier.key).nodup_iff
  unfold LoyaltyPolicy.validate
  by_cases h1 : pyStrip p.program_name = ""
  · rw [if_pos h1]
    exact iff_of_false (by simp) (not_not_intro (Or.inl h1))
  rw [if_neg h1]
  by_cases h2 : pyStrip p.currency = ""
  · rw [if_pos h2]
    exact iff_of_false (by simp) (not_not_intro (Or.inr (Or.inl h2)))
  rw [if_neg h2]
  by_cases h3 : p.points_rule.points_per_currency_unit ≤ 0
  · rw [if_pos h3]
    exact iff_of_false (by simp) (not_not_intro (Or.inr (Or.inr (Or.inl h3))))
  rw [if_neg h3]
  by_cases h4 : p.points_rule.earn_rate_of_eligible_spend < 0
      ∨ 1 ≤ p.points_rule.earn_rate_of_eligible_spend
  · rw [if_pos h4]
    refine iff_of_false (by simp) (not_not_intro ?_)
    rcases h4 with h4 | h4
    · exact Or.inr (Or.inr (Or.inr (Or.inl h4)))
    · exact Or.inr (Or.inr (Or.inr (Or.inr (Or.inl h4))))
  rw [if_neg h4]
  by_cases h5 : ¬ (p.points_rule.rounding = "nearest" ∨ p.points_rule.rounding = "down")
  · rw [if_pos h5]
    exact iff_of_false (by simp)
      (not_not_intro (Or.inr (Or.inr (Or.inr (Or.inr (Or.inr (Or.inl h5)))))))
  rw [if_neg h5]
  by_cases h6 : (match p.points_rule.points_expiry_days with
      | some d => decide (d ≤ 0)
      | none => false) = true
  · rw [if_pos h6]
    refine iff_of_false (by simp) (not_not_intro ?_)
    have hex : ∃ d, p.points_rule.points_expiry_days = some d ∧ d ≤ 0 := by
      rcases hcase : p.points_rule.points_expiry_days with _ | d
      · rw [hcase] at h6; exact absurd h6 (by simp)
      · rw [hcase] at h6; simp only [decide_eq_true_eq] at h6; exact ⟨d, rfl, h6⟩
    exact Or.inr (Or.inr (Or.inr (Or.inr (Or.inr (Or.inr (Or.inl hex))))))
  rw [if_neg h6]
  by_cases h7 : p.tiers.length < 1
  · rw [if_pos h7]
    exact iff_of_false (by simp)
      (not_not_intro (Or.inr (Or.inr (Or.inr (Or.inr (Or.inr (Or.inr (Or.inr (Or.inl h7)))))))))
  rw [if_neg h7]
  rcases hloop : validateTiersLoop (sortTiers p.tiers) [] with e | u
  · have ht : tiersCheck p = Except.error e := by unfold tiersCheck; rw [hloop]
    rw [ht]
    have hloop2 : ¬ ((∀ t ∈ sortTiers p.tiers, ¬ pyStrip t.key = "")
        ∧ (∀ t ∈ sortTiers p.tiers, ¬ t.min_lifetime_spend < 0)
        ∧ ((sortTiers p.tiers).map Tier.key).Nodup
        ∧ ∀ t ∈ sortTiers p.tiers, t.key ∉ ([] : List String)) := by
      rw [← validateTiersLoop_ok_iff, hloop]
      simp
    refine iff_of_false (by simp) (not_not_intro ?_)
    by_cases hk : ∃ t ∈ p.tiers, pyStrip t.key = ""
    · exact Or.inr (Or.inr (Or.inr (Or.inr (Or.inr (Or.inr (Or.inr (Or.inr (Or.inl hk))))))))
    by_cases hnd : (p.tiers.map Tier.key).Nodup
    · by_cases hneg : ∃ t ∈ p.tiers, t.min_lifetime_spend < 0
      · exact Or.inr (Or.inr (Or.inr (Or.inr (Or.inr (Or.inr (Or.inr (Or.inr (Or.inr
          (Or.inr (Or.inl hneg))))))))))
      · exfalso
        apply hloop2
        refine ⟨?_, ?_, hnodup.mpr hnd, by simp⟩
        · intro t ht hempty
          exact hk ⟨t, (hmem t).mp ht, hempty⟩
        · intro t ht hneg2
          exact hneg ⟨t, (hmem t).mp ht, hneg2⟩
    · exact Or.inr (Or.inr (Or.inr (Or.inr (Or.inr (Or.inr (Or.inr (Or.inr (Or.inr
        (Or.inl hnd)))))))))
  · cases u
    have ht : tiersCheck p = tiersHeadCheck (sortTiers p.tiers) := by
      unfold tiersCheck; rw [hloop]
    rw [ht]
    have hloop2 : (∀ t ∈ sortTiers p.tiers, ¬ pyStrip t.key = "")
        ∧ (∀ t ∈ sortTiers p.tiers, ¬ t.min_lifetime_spend < 0)
        ∧ ((sortTiers p.tiers).map Tier.key).Nodup
        ∧ ∀ t ∈ sortTiers p.tiers, t.key ∉ ([] : List String) := by
      rw [← validateTiersLoop_ok_iff, hloop]
    rcases hhead : sortTiers p.tiers with _ | ⟨t0, rest⟩
    · exfalso
      have hlen := hperm.length_eq
      rw [hhead] at hlen
      simp only [List.length_nil] at hlen
      omega
    · simp only [tiersHeadCheck]
      by_cases hz : t0.min_lifetime_spend ≠ 0
      · rw [if_pos hz]
        refine iff_of_false (by simp) (not_not_intro ?_)
        refine Or.inr (Or.inr (Or.inr (Or.inr (Or.inr (Or.inr (Or.inr (Or.inr (Or.inr
          (Or.inr (Or.inr ?_))))))))))
        rw [hhead]
        simpa using hz
      · rw [if_neg hz]
        push_neg at hz
        refine iff_of_true rfl ?_
        intro hd
        rcases hd with hd | hd | hd | hd | hd | hd | hd | hd | hd | hd | hd | hd
        · exact h1 hd
        · exact h2 hd
        · exact h3 hd
        · exact h4 (Or.inl hd)
        · exact h4 (Or.inr hd)
        · exact hd (not_not.mp h5)
        · rcases hd with ⟨dd, hdd, hdle⟩
          apply h6
          rw [hdd]
          simpa using hdle
        · exact h7 hd
        · rcases hd with ⟨t, ht, hte⟩
          exact hloop2.1 t ((hmem t).mpr ht) hte
        · exact hd (hnodup.mp hloop2.2.2.1)
        · rcases hd with ⟨t, ht, htn⟩
          exact hloop2.2.1 t ((hmem t).mpr ht) htn
        · apply hd
          rw [hhead]
          simp [hz]

/-- Claim C6 (amended): `from_dict` fails (with the `ValueError` the spec
calls `InvalidPolicy`) exactly when the assembled policy — defaults
substituted for missing fields, tier keys stripped, the default tier table
substituted for an empty tier list — has an empty program name or currency,
non-positive points_per_currency_unit, earn rate outside [0,1), unknown
rounding mode, non-positive expiry when present, fewer than one tier (never
the case after default substitution), A TIER KEY THAT IS EMPTY AFTER
STRIPPING (the condition the claim omits), duplicate tier keys, a negative
threshold, or a first (lowest sorted) threshold different from 0. -/
theorem from_dict_fails_iff (d : PolicyData) :
    (LoyaltyPolicy.from_dict d).isOk = false ↔ validateFailCond (fromDictPolicy d) := by
  have hv := validate_ok_iff (fromDictPolicy d)
  unfold LoyaltyPolicy.from_dict
  rcases he : (fromDictPolicy d).validate with e | u
  · have hne : ¬ (fromDictPolicy d).validate = Except.ok () := by rw [he]; simp
    have hcond : validateFailCond (fromDictPolicy d) := by
      by_contra hc
      exact hne (hv.mpr hc)
    simp [Except.isOk, Except.toBool, hcond]
  · cases u
    have hcond : ¬ validateFailCond (fromDictPolicy d) := hv.mp he
    simp [Except.isOk, Except.toBool, hcond]

/-- The concrete `from_dict` input of the C6 counterexample: one tier whose
key is absent (so it strips to `""`), threshold 0, everything else default. -/
def emptyKeyData : PolicyData :=
  { program_name := none, currency := none
    tiers := [{ key := none, min_lifetime_spend := some 0 }]
    points_per_currency_unit := none, earn_rate_of_eligible_spend := none
    rounding := none, points_expiry_days := none
    allow_downgrades := none, allow_negative_points_balance := none
    version := none }

theorem emptyKeyData_policy :
    fromDictPolicy emptyKeyData
      = { program_name := "Exclusivity", currency := "USD"
          tiers := [{ key := "", min_lifetime_spend := 0 }]
          points_rule :=
            { points_per_currency_unit := 100, earn_rate_of_eligible_spend := 2 / 100
              rounding := "nearest", points_expiry_days := none }
          allow_downgrades := false, allow_negative_points_balance := false
          version := "2025-12-14-canonical" } := rfl

theorem emptyKeyData_validate :
    (fromDictPolicy emptyKeyData).validate = Except.error "tier.key cannot be empty" := by
  rw [emptyKeyData_policy]
  unfold LoyaltyPolicy.validate
  rw [if_neg (by decide), if_neg (by decide), if_neg (by norm_num),
    if_neg (by norm_num), if_neg (not_not_intro (Or.inl rfl)), if_neg (by simp),
    if_neg (by decide)]
  unfold tiersCheck sortTiers
  rw [show List.insertionSort tierLE [{ key := "", min_lifetime_spend := 0 }]
      = [{ key := "", min_lifetime_spend := 0 }] from rfl]
  rw [validateTiersLoop, if_pos (by decide)]

/-- Counterexample to claim C6 as stated: a single tier whose key is absent
(yielding `""` after strip, threshold 0) makes `from_dict` raise
"tier.key cannot be empty", yet none of the conditions the claim lists holds
of the assembled input — the claim's "exactly when" is false here. -/
theorem from_dict_empty_key_failure :
    (LoyaltyPolicy.from_dict emptyKeyData).isOk = false
    ∧ ¬ claimedFailCond (fromDictPolicy emptyKeyData) := by
  constructor
  · unfold LoyaltyPolicy.from_dict
    rw [emptyKeyData_validate]
    rfl
  · rw [emptyKeyData_policy]
    unfold claimedFailCond
    rintro (h | h | h | h | h | h | h | h | h | h | h)
    · exact absurd h (by decide)
    · exact absurd h (by decide)
    · exact absurd h (by norm_num)
    · exact absurd h (by norm_num)
    · exact absurd h (by norm_num)
    · exact h (Or.inl rfl)
    · rcases h with ⟨d, hd, _⟩
      exact absurd hd (by simp)
    · exact absurd h (by decide)
    · exact h (by decide)
    · rcases h with ⟨t, ht, htn⟩
      rcases List.mem_singleton.mp ht with rfl
      exact absurd htn (by norm_num)
    · apply h
      rfl

/-! ## Tier Engine (`tier_engine.py`) -/

/-- The payload of `TierEngine.downgrade_check`: `tier_key` is the
`retained_tier` key in the blocked branch and the `new_tier` key otherwise. -/
structure DowngradeResult where
  downgrade_detected : Bool
  applied : Bool
  tier_key : String
  deriving DecidableEq

/-- `TierEngine.downgrade_check` (via `evaluate`, whose current tier is
`tier_for_lifetime_spend` of the non-negative-clamped spend; the clamp is
already part of `tier_for_lifetime_spend`).  `none` models the `IndexError`
on an empty tier list, impossible for a validated policy. -/
def TierEngine.downgrade_check (p : LoyaltyPolicy)
    (lifetime_spend_before lifetime_spend_after : ℚ) : Option DowngradeResult :=
  match p.tier_for_lifetime_spend lifetime_spend_before,
        p.tier_for_lifetime_spend lifetime_spend_after with
  | some bt, some tafter =>
    let detected : Bool := decide (tafter.min_lifetime_spend < bt.min_lifetime_spend)
    if detected = true ∧ p.allow_downgrades = false then
      some { downgrade_detected := true, applied := false, tier_key := bt.key }
    else
      some { downgrade_detected := detected, applied := detected
             tier_key := if detected = true then tafter.key else bt.key }
  | _, _ => none

/-- Claim C9: with downgrades disallowed, a spend drop that would lower the
tier is detected but never applied, and the prior tier's key is retained. -/
theorem downgrade_check_non_punitive (p : LoyaltyPolicy)
    (before_spend after_spend : ℚ) (bt tafter : Tier)
    (hallow : p.allow_downgrades = false)
    (hb : p.tier_for_lifetime_spend before_spend = some bt)
    (ha : p.tier_for_lifetime_spend after_spend = some tafter)
    (hlt : tafter.min_lifetime_spend < bt.min_lifetime_spend) :
    TierEngine.downgrade_check p before_spend after_spend
      = some { downgrade_detected := true, applied := false, tier_key := bt.key } := by
  unfold TierEngine.downgrade_check
  rw [hb, ha]
  simp [hlt, hallow]

/-- Witness for `downgrade_check_non_punitive`: dropping from spend 600
(silver) to 400 (bronze) on the default tiers is reported, not applied. -/
theorem downgrade_check_non_punitive_witness :
    TierEngine.downgrade_check defaultPolicy 600 400
      = some { downgrade_detected := true, applied := false, tier_key := "silver" } :=
  downgrade_check_non_punitive defaultPolicy 600 400
    { key := "silver", min_lifetime_spend := 500 }
    { key := "bronze", min_lifetime_spend := 0 }
    rfl (by decide) (by decide) (by norm_num)

/-! ## Rewards Allocator (`rewards_allocator.py`) -/

/-- Canonical order line input. -/
structure OrderLine where
  line_id : String
  product_id : Option String
  title : String
  unit_price : ℚ
  quantity : ℤ
  eligible_for_points : Bool
  deriving DecidableEq

/-- `OrderLine.line_subtotal`. -/
def OrderLine.line_subtotal (l : OrderLine) : ℚ :=
  l.unit_price * ((max 0 l.quantity : ℤ) : ℚ)

/-- Canonical order snapshot. -/
structure OrderSnapshot where
  order_id : String
  member_ref : String
  lines : List OrderLine
  currency : String
  discounts_total : ℚ
  deriving DecidableEq

/-- `RewardsAllocator._safe_money`: clamp below at 0 (the `Decimal`
conversion of the typed input always succeeds in this model). -/
def safeMoney (v : ℚ) : ℚ := if v < 0 then 0 else v

/-- Step 1 of `allocate_for_order`: per-line eligible amounts (0 for
ineligible lines). -/
def eligibleByLine (order : OrderSnapshot) : List (OrderLine × ℚ) :=
  order.lines.map fun line =>
    if line.eligible_for_points then (line, safeMoney line.line_subtotal) else (line, 0)

/-- `sum((amt for _, amt in eligible_by_line), D("0.00"))`. -/
def amountsTotal (l : List (OrderLine × ℚ)) : ℚ :=
  (l.map fun x => x.2).sum

/-- The single pass of `_apply_proportional_discounts`, tracking the
remaining discount pool. -/
def discountGo (eligible_total discounts_total : ℚ) :
    List (OrderLine × ℚ) → ℚ → List (OrderLine × ℚ)
  | [], _ => []
  | (line, amt) :: rest, remaining =>
    if amt ≤ 0 then (line, amt) :: discountGo eligible_total discounts_total rest remaining
    else
      let share0 := (amt / eligible_total) * discounts_total
      let share := if share0 ≤ remaining then share0 else remaining
      let new_amt := amt - share
      let new_amt2 := if new_amt < 0 then 0 else new_amt
      (line, new_amt2) :: discountGo eligible_total discounts_total rest (remaining - share)

/-- `RewardsAllocator._apply_proportional_discounts`. -/
def applyProportionalDiscounts (eligible_by_line : List (OrderLine × ℚ))
    (discounts_total eligible_total : ℚ) : List (OrderLine × ℚ) :=
  if discounts_total ≤ 0 ∨ eligible_total ≤ 0 then eligible_by_line
  else discountGo eligible_total discounts_total eligible_by_line discounts_total

/-- The initial floor allocation of `_allocate_points_to_lines`: per line,
the floored proportional share and its fractional remainder. -/
def allocInit (eligible_total : ℚ) (pts_total : ℤ) (l : List (OrderLine × ℚ)) :
    List (OrderLine × ℤ × ℚ) :=
  l.map fun x =>
    if x.2 ≤ 0 then (x.1, 0, 0)
    else
      let raw := (x.2 / eligible_total) * (pts_total : ℚ)
      (x.1, truncInt raw, raw - (truncInt raw : ℚ))

/-- `allocations_sorted[i] = (line, pts + 1, frac)` for the first `k`
entries. -/
def bumpFirst : ℕ → List (OrderLine × ℤ × ℚ) → List (OrderLine × ℤ × ℚ)
  | 0, l => l
  | _ + 1, [] => []
  | k + 1, x :: rest => (x.1, x.2.1 + 1, x.2.2) :: bumpFirst k rest

/-- `sorted(allocations, key=lambda x: x[2], reverse=True)`: descending by
fractional remainder, stable (insertion sort mirrors Python's stable sort
with `reverse=True`, which keeps equal elements in original order). -/
def fracGE (a b : OrderLine × ℤ × ℚ) : Prop := b.2.2 ≤ a.2.2

instance : DecidableRel fracGE := fun a b => by unfold fracGE; infer_instance

/-- `RewardsAllocator._allocate_points_to_lines`. -/
def allocatePointsToLines (eligible_by_line : List (OrderLine × ℚ))
    (points_total : ℤ) : List (OrderLine × ℤ) :=
  let pts_total := max 0 points_total
  if pts_total = 0 then eligible_by_line.map fun x => (x.1, 0)
  else
    let eligible_total := amountsTotal eligible_by_line
    if eligible_total ≤ 0 then eligible_by_line.map fun x => (x.1, 0)
    else
      let allocations := allocInit eligible_total pts_total eligible_by_line
      let allocated_sum := (allocations.map fun x => x.2.1).sum
      let remainder := pts_total - allocated_sum
      let final :=
        if 0 < remainder then
          bumpFirst (min remainder.toNat (List.insertionSort fracGE allocations).length)
            (List.insertionSort fracGE allocations)
        else allocations
      final.map fun x => (x.1, x.2.1)

/-- `PointsLedger.make_earn_event` (the allocator passes `meta` holding
`eligible_spend`; `created_at` is the wall clock, opaque here). -/
def PointsLedger.make_earn_event (event_id member_ref : String) (points : ℤ)
    (idempotency_key order_id : String) (order_line_id : Option String)
    (meta : EventMeta) : LedgerEvent :=
  { event_id := event_id
    member_ref := member_ref
    event_type := "earn"
    points_delta := max 0 points
    idempotency_key := some idempotency_key
    related_ref := some order_id
    related_line_ref := order_line_id
    created_at := ""
    meta := meta }

/-- `PointsLedger.make_refund_event`: `related_ref = refund_id or order_id`
(Python truthiness: empty string falls back). -/
def PointsLedger.make_refund_event (event_id member_ref : String)
    (points_to_remove : ℤ) (idempotency_key order_id refund_id : String)
    (order_line_id : Option String) (meta : EventMeta) : LedgerEvent :=
  { event_id := event_id
    member_ref := member_ref
    event_type := "refund"
    points_delta := -(|points_to_remove|)
    idempotency_key := some idempotency_key
    related_ref := some (if refund_id = "" then order_id else refund_id)
    related_line_ref := order_line_id
    created_at := ""
    meta := meta }

/-- `RewardsAllocator._line_eligible_amount`: first match wins, else 0. -/
def lineEligibleAmount : List (OrderLine × ℚ) → String → ℚ
  | [], _ => 0
  | (line, amt) :: rest, line_id =>
    if line.line_id = line_id then amt else lineEligibleAmount rest line_id

/-- `AllocationResult` (the free-form `explanation` payload is omitted). -/
structure AllocationResult where
  eligible_spend : ℚ
  points_awarded : ℤ
  events : List LedgerEvent
  deriving DecidableEq

/-- Steps 1–2 of `allocate_for_order`: eligible amounts per line with
discounts prorated. -/
def discountedEligible (order : OrderSnapshot) : List (OrderLine × ℚ) :=
  let ebl := eligibleByLine order
  let eligible_total := amountsTotal ebl
  let discounts := safeMoney order.discounts_total
  if 0 < discounts ∧ 0 < eligible_total then
    applyProportionalDiscounts ebl discounts eligible_total
  else ebl

/-- `RewardsAllocator.allocate_for_order`. -/
def RewardsAllocator.allocate_for_order (policy : LoyaltyPolicy)
    (order : OrderSnapshot) (eidPre idemPre : String) : AllocationResult :=
  let ebl := discountedEligible order
  let eligible_total := amountsTotal ebl
  let points_total := policy.points_for_eligible_spend eligible_total
  let per_line_points := allocatePointsToLines ebl points_total
  let events := per_line_points.filterMap fun x =>
    if x.2 ≤ 0 then none
    else some (PointsLedger.make_earn_event
      (eidPre ++ ":" ++ order.order_id ++ ":" ++ x.1.line_id)
      order.member_ref x.2
      (idemPre ++ ":" ++ order.order_id ++ ":" ++ x.1.line_id)
      order.order_id (some x.1.line_id)
      { eligible_spend := some (q2 (lineEligibleAmount ebl x.1.line_id)) })
  { eligible_spend := q2 eligible_total
    points_awarded := points_total
    events := events }

/-- `earned_points_by_line` of `allocate_refund_adjustment`: the summed
deltas of the earn events of a (truthy) line id. -/
def earnedPointsByLine (original_earn_events : List LedgerEvent) (line_id : String) : ℤ :=
  if line_id = "" then 0
  else
    ((original_earn_events.filter fun e =>
        e.event_type == "earn" && e.related_line_ref == some line_id).map
      fun e => e.points_delta).sum

/-- `eligible_spend_by_line` of `allocate_refund_adjustment`: the summed
parseable `meta["eligible_spend"]` amounts of a line's earn events; `none`
when the line id is falsy or no event carried a parseable amount (the key is
then absent from the dict). -/
def metaSpendByLine (original_earn_events : List LedgerEvent) (line_id : String) :
    Option ℚ :=
  if line_id = "" then none
  else
    let contributions := (original_earn_events.filter fun e =>
        e.event_type == "earn" && e.related_line_ref == some line_id).filterMap
      fun e => e.meta.eligible_spend
    if contributions.isEmpty then none else some contributions.sum

/-- The points-to-remove computation for one refunded line: proportional to
`refunded_amount / original_eligible_amount` (minimum 1) when the original
eligible spend was recorded in event meta and is positive, otherwise the
policy conversion of the refunded amount; always clamped to the line's
earned points. -/
def refundPointsToRemove (policy : LoyaltyPolicy)
    (original_earn_events : List LedgerEvent) (line_id : String)
    (refunded_amt : ℚ) : ℤ :=
  let earned_pts := earnedPointsByLine original_earn_events line_id
  let pts0 :=
    match metaSpendByLine original_earn_events line_id with
    | some orig =>
      if 0 < orig then
        let proportion0 := refunded_amt / orig
        let proportion1 := if proportion0 < 0 then 0 else proportion0
        let proportion := if 1 < proportion1 then 1 else proportion1
        let p := truncInt ((earned_pts : ℚ) * proportion)
        if p ≤ 0 then 1 else p
      else policy.points_for_eligible_spend refunded_amt
    | none => policy.points_for_eligible_spend refunded_amt
  if earned_pts < pts0 then earned_pts else pts0

/-- The per-refund-line loop of `allocate_refund_adjustment`. -/
def refundGo (policy : LoyaltyPolicy) (order_id refund_id member_ref : String)
    (original_earn_events : List LedgerEvent) (eidPre idemPre : String) :
    List (String × ℚ) → List LedgerEvent
  | [] => []
  | (line_id, amt0) :: rest =>
    let tail := refundGo policy order_id refund_id member_ref original_earn_events
      eidPre idemPre rest
    let refunded_amt := safeMoney amt0
    if refunded_amt ≤ 0 then tail
    else if earnedPointsByLine original_earn_events line_id ≤ 0 then tail
    else
      PointsLedger.make_refund_event
        (eidPre ++ ":" ++ refund_id ++ ":" ++ line_id) member_ref
        (refundPointsToRemove policy original_earn_events line_id refunded_amt)
        (idemPre ++ ":" ++ refund_id ++ ":" ++ line_id) order_id refund_id
        (some line_id) { eligible_spend := none } :: tail

/-- `RewardsAllocator.allocate_refund_adjustment` (the `refund_line_amounts`
dict is modelled as an association list iterated in order). -/
def RewardsAllocator.allocate_refund_adjustment (policy : LoyaltyPolicy)
    (order_id refund_id member_ref : String)
    (original_earn_events : List LedgerEvent)
    (refund_line_amounts : List (String × ℚ)) (eidPre idemPre : String) :
    List LedgerEvent :=
  refundGo policy order_id refund_id member_ref original_earn_events
    eidPre idemPre refund_line_amounts

theorem points_for_eligible_spend_nonneg (p : LoyaltyPolicy) (q : ℚ) :
    0 ≤ p.points_for_eligible_spend q := by
  unfold LoyaltyPolicy.points_for_eligible_spend
  dsimp only
  split_ifs <;> omega

theorem refundPointsToRemove_bounds (policy : LoyaltyPolicy)
    (original_earn_events : List LedgerEvent) (line_id : String) (refunded_amt : ℚ)
    (h : 0 < earnedPointsByLine original_earn_events line_id) :
    0 ≤ refundPointsToRemove policy original_earn_events line_id refunded_amt
    ∧ refundPointsToRemove policy original_earn_events line_id refunded_amt
        ≤ earnedPointsByLine original_earn_events line_id := by
  unfold refundPointsToRemove
  rcases metaSpendByLine original_earn_events line_id with _ | orig
  · have := points_for_eligible_spend_nonneg policy refunded_amt
    constructor <;> [skip; skip] <;> simp only [] <;> split_ifs <;> omega
  · simp only []
    by_cases ho : 0 < orig
    · rw [if_pos ho]
      split_ifs <;> omega
    · rw [if_neg ho]
      have := points_for_eligible_spend_nonneg policy refunded_amt
      split_ifs <;> omega

theorem refundPointsToRemove_min_one (policy : LoyaltyPolicy)
    (original_earn_events : List LedgerEvent) (line_id : String) (refunded_amt : ℚ)
    (v : ℚ) (hm : metaSpendByLine original_earn_events line_id = some v) (hv : 0 < v)
    (h : 0 < earnedPointsByLine original_earn_events line_id) :
    1 ≤ refundPointsToRemove policy original_earn_events line_id refunded_amt := by
  unfold refundPointsToRemove
  rw [hm]
  simp only [if_pos hv]
  split_ifs <;> omega

theorem refundGo_cons (policy : LoyaltyPolicy) (order_id refund_id member_ref : String)
    (original_earn_events : List LedgerEvent) (eidPre idemPre : String)
    (line_id : String) (amt0 : ℚ) (rest : List (String × ℚ)) :
    refundGo policy order_id refund_id member_ref original_earn_events
        eidPre idemPre ((line_id, amt0) :: rest)
      = if safeMoney amt0 ≤ 0 then
          refundGo policy order_id refund_id member_ref original_earn_events
            eidPre idemPre rest
        else if earnedPointsByLine original_earn_events line_id ≤ 0 then
          refundGo policy order_id refund_id member_ref original_earn_events
            eidPre idemPre rest
        else
          PointsLedger.make_refund_event
            (eidPre ++ ":" ++ refund_id ++ ":" ++ line_id) member_ref
            (refundPointsToRemove policy original_earn_events line_id (safeMoney amt0))
            (idemPre ++ ":" ++ refund_id ++ ":" ++ line_id) order_id refund_id
            (some line_id) { eligible_spend := none }
          :: refundGo policy order_id refund_id member_ref original_earn_events
               eidPre idemPre rest := rfl

/-- Claim C5: refund clamp.  Every refund event the allocator emits removes
at most the points originally earned on its line (the summed deltas of that
line's earn events among `original_earn_events`). -/
theorem refund_clamp (policy : LoyaltyPolicy)
    (order_id refund_id member_ref : String)
    (original_earn_events : List LedgerEvent)
    (refund_line_amounts : List (String × ℚ)) (eidPre idemPre : String)
    (e : LedgerEvent)
    (he : e ∈ RewardsAllocator.allocate_refund_adjustment policy order_id refund_id
      member_ref original_earn_events refund_line_amounts eidPre idemPre)
    (line_id : String) (hl : e.related_line_ref = some line_id) :
    -e.points_delta ≤ earnedPointsByLine original_earn_events line_id := by
  unfold RewardsAllocator.allocate_refund_adjustment at he
  induction refund_line_amounts with
  | nil => exact absurd he (by simp [refundGo])
  | cons hd rest ih =>
    obtain ⟨lid0, amt0⟩ := hd
    rw [refundGo_cons] at he
    by_cases h1 : safeMoney amt0 ≤ 0
    · rw [if_pos h1] at he
      exact ih he
    · rw [if_neg h1] at he
      by_cases h2 : earnedPointsByLine original_earn_events lid0 ≤ 0
      · rw [if_pos h2] at he
        exact ih he
      · rw [if_neg h2] at he
        rcases List.mem_cons.mp he with rfl | he2
        · have hb := refundPointsToRemove_bounds policy original_earn_events lid0
            (safeMoney amt0) (by omega)
          have hline : line_id = lid0 := by
            simpa [PointsLedger.make_refund_event] using hl.symm
          subst hline
          have habs : |refundPointsToRemove policy original_earn_events line_id
              (safeMoney amt0)| = refundPointsToRemove policy original_earn_events
              line_id (safeMoney amt0) := abs_of_nonneg hb.1
          simp only [PointsLedger.make_refund_event, neg_neg, habs]
          exact hb.2
        · exact ih he2

/-- Witness for `refund_clamp`: line L1 earned 5 points; refunding 10 of a
recorded 20 eligible spend removes 2 points, at most the 5 earned. -/
theorem refund_clamp_witness :
    (PointsLedger.make_refund_event "e:r:L1" "m" 2 "i:r:L1" "o" "r" (some "L1")
          { eligible_spend := none }
        ∈ RewardsAllocator.allocate_refund_adjustment defaultPolicy "o" "r" "m"
          [{ event_id := "a", member_ref := "m", event_type := "earn", points_delta := 5,
             idempotency_key := some "k", related_ref := some "o",
             related_line_ref := some "L1", created_at := "",
             meta := { eligible_spend := some 20 } }]
          [("L1", 10)] "e" "i"
      ∧ (PointsLedger.make_refund_event "e:r:L1" "m" 2 "i:r:L1" "o" "r" (some "L1")
          { eligible_spend := none }).related_line_ref = some "L1")
    ∧ -(PointsLedger.make_refund_event "e:r:L1" "m" 2 "i:r:L1" "o" "r" (some "L1")
          { eligible_spend := none }).points_delta
        ≤ earnedPointsByLine
            [{ event_id := "a", member_ref := "m", event_type := "earn", points_delta := 5,
               idempotency_key := some "k", related_ref := some "o",
               related_line_ref := some "L1", created_at := "",
               meta := { eligible_spend := some 20 } }] "L1" := by
  have hmem : PointsLedger.make_refund_event "e:r:L1" "m" 2 "i:r:L1" "o" "r" (some "L1")
        { eligible_spend := none }
      ∈ RewardsAllocator.allocate_refund_adjustment defaultPolicy "o" "r" "m"
        [{ event_id := "a", member_ref := "m", event_type := "earn", points_delta := 5,
           idempotency_key := some "k", related_ref := some "o",
           related_line_ref := some "L1", created_at := "",
           meta := { eligible_spend := some 20 } }]
        [("L1", 10)] "e" "i" := by
    unfold RewardsAllocator.allocate_refund_adjustment
    rw [refundGo_cons]
    have hsafe : safeMoney (10 : ℚ) = 10 := by
      unfold safeMoney
      rw [if_neg (by norm_num)]
    have hearned : earnedPointsByLine
        [{ event_id := "a", member_ref := "m", event_type := "earn", points_delta := 5,
           idempotency_key := some "k", related_ref := some "o",
           related_line_ref := some "L1", created_at := "",
           meta := { eligible_spend := some 20 } }] "L1" = 5 := by decide
    have hmeta : metaSpendByLine
        [{ event_id := "a", member_ref := "m", event_type := "earn", points_delta := 5,
           idempotency_key := some "k", related_ref := some "o",
           related_line_ref := some "L1", created_at := "",
           meta := { eligible_spend := some 20 } }] "L1" = some (20 + 0) := by
      unfold metaSpendByLine
      rw [if_neg (by decide)]
      rfl
    rw [hsafe, if_neg (by norm_num), hearned, if_neg (by norm_num)]
    have hremove : refundPointsToRemove defaultPolicy
        [{ event_id := "a", member_ref := "m", event_type := "earn", points_delta := 5,
           idempotency_key := some "k", related_ref := some "o",
           related_line_ref := some "L1", created_at := "",
           meta := { eligible_spend := some 20 } }] "L1" 10 = 2 := by
      unfold refundPointsToRemove
      rw [hmeta, hearned]
      norm_num [truncInt]
    rw [hremove]
    exact List.mem_cons_self _ _
  exact ⟨⟨hmem, rfl⟩,
    refund_clamp defaultPolicy "o" "r" "m" _ [("L1", 10)] "e" "i" _ hmem "L1" rfl⟩

/-- Claim C7 (amended): minimum-1 removal holds on the proportional branch.
When a refunded line's original eligible spend was recorded in event meta
and is positive, a positive refunded amount on a line with positive earned
points yields a refund event removing at least 1 point.  (On the fallback
branch — no recorded eligible spend — the removal is the policy conversion
of the refunded amount clamped to the earned points and can be 0, so a
zero-delta event can be emitted; see the counterexample.) -/
theorem refund_min_one (policy : LoyaltyPolicy)
    (order_id refund_id member_ref : String)
    (original_earn_events : List LedgerEvent)
    (refund_line_amounts : List (String × ℚ)) (eidPre idemPre : String)
    (e : LedgerEvent)
    (he : e ∈ RewardsAllocator.allocate_refund_adjustment policy order_id refund_id
      member_ref original_earn_events refund_line_amounts eidPre idemPre)
    (line_id : String) (v : ℚ) (hl : e.related_line_ref = some line_id)
    (hm : metaSpendByLine original_earn_events line_id = some v) (hv : 0 < v) :
    1 ≤ -e.points_delta := by
  unfold RewardsAllocator.allocate_refund_adjustment at he
  induction refund_line_amounts with
  | nil => exact absurd he (by simp [refundGo])
  | cons hd rest ih =>
    obtain ⟨lid0, amt0⟩ := hd
    rw [refundGo_cons] at he
    by_cases h1 : safeMoney amt0 ≤ 0
    · rw [if_pos h1] at he
      exact ih he
    · rw [if_neg h1] at he
      by_cases h2 : earnedPointsByLine original_earn_events lid0 ≤ 0
      · rw [if_pos h2] at he
        exact ih he
      · rw [if_neg h2] at he
        rcases List.mem_cons.mp he with rfl | he2
        · have hline : line_id = lid0 := by
            simpa [PointsLedger.make_refund_event] using hl.symm
          subst hline
          have h1le := refundPointsToRemove_min_one policy original_earn_events
            line_id (safeMoney amt0) v hm hv (by omega)
          have hb := refundPointsToRemove_bounds policy original_earn_events line_id
            (safeMoney amt0) (by omega)
          have habs : |refundPointsToRemove policy original_earn_events line_id
              (safeMoney amt0)| = refundPointsToRemove policy original_earn_events
              line_id (safeMoney amt0) := abs_of_nonneg hb.1
          simp only [PointsLedger.make_refund_event, neg_neg, habs]
          exact h1le
        · exact ih he2

/-- Witness for `refund_min_one`: refunding 1 cent of a recorded 20.00
eligible spend on a line that earned 5 points still removes 1 point. -/
theorem refund_min_one_witness :
    (PointsLedger.make_refund_event "e:r:L1" "m" 1 "i:r:L1" "o" "r" (some "L1")
          { eligible_spend := none }
        ∈ RewardsAllocator.allocate_refund_adjustment defaultPolicy "o" "r" "m"
          [{ event_id := "a", member_ref := "m", event_type := "earn", points_delta := 5,
             idempotency_key := some "k", related_ref := some "o",
             related_line_ref := some "L1", created_at := "",
             meta := { eligible_spend := some 20 } }]
          [("L1", 1/100)] "e" "i"
      ∧ metaSpendByLine
          [{ event_id := "a", member_ref := "m", event_type := "earn", points_delta := 5,
             idempotency_key := some "k", related_ref := some "o",
             related_line_ref := some "L1", created_at := "",
             meta := { eligible_spend := some 20 } }] "L1" = some (20 + 0)
      ∧ (0:ℚ) < 20 + 0)
    ∧ 1 ≤ -(PointsLedger.make_refund_event "e:r:L1" "m" 1 "i:r:L1" "o" "r" (some "L1")
          { eligible_spend := none }).points_delta := by
  have hmeta : metaSpendByLine
      [{ event_id := "a", member_ref := "m", event_type := "earn", points_delta := 5,
         idempotency_key := some "k", related_ref := some "o",
         related_line_ref := some "L1", created_at := "",
         meta := { eligible_spend := some 20 } }] "L1" = some (20 + 0) := by
    unfold metaSpendByLine
    rw [if_neg (by decide)]
    rfl
  have hearned : earnedPointsByLine
      [{ event_id := "a", member_ref := "m", event_type := "earn", points_delta := 5,
         idempotency_key := some "k", related_ref := some "o",
         related_line_ref := some "L1", created_at := "",
         meta := { eligible_spend := some 20 } }] "L1" = 5 := by decide
  have hmem : PointsLedger.make_refund_event "e:r:L1" "m" 1 "i:r:L1" "o" "r" (some "L1")
        { eligible_spend := none }
      ∈ RewardsAllocator.allocate_refund_adjustment defaultPolicy "o" "r" "m"
        [{ event_id := "a", member_ref := "m", event_type := "earn", points_delta := 5,
           idempotency_key := some "k", related_ref := some "o",
           related_line_ref := some "L1", created_at := "",
           meta := { eligible_spend := some 20 } }]
        [("L1", 1/100)] "e" "i" := by
    unfold RewardsAllocator.allocate_refund_adjustment
    rw [refundGo_cons]
    have hsafe : safeMoney ((1:ℚ)/100) = 1/100 := by
      unfold safeMoney
      rw [if_neg (by norm_num)]
    rw [hsafe, if_neg (by norm_num), hearned, if_neg (by norm_num)]
    have hremove : refundPointsToRemove defaultPolicy
        [{ event_id := "a", member_ref := "m", event_type := "earn", points_delta := 5,
           idempotency_key := some "k", related_ref := some "o",
           related_line_ref := some "L1", created_at := "",
           meta := { eligible_spend := some 20 } }] "L1" (1/100) = 1 := by
      unfold refundPointsToRemove
      rw [hmeta, hearned]
      norm_num [truncInt]
    rw [hremove]
    exact List.mem_cons_self _ _
  refine ⟨⟨hmem, hmeta, by norm_num⟩, ?_⟩
  exact refund_min_one defaultPolicy "o" "r" "m" _ [("L1", 1/100)] "e" "i" _ hmem
    "L1" (20 + 0) rfl hmeta (by norm_num)

/-- Counterexample to claim C7 as stated: with no recorded eligible spend in
meta, refunding 0.10 on a line that earned 5 points emits a refund event
whose `points_delta` is 0 (the policy conversion of 0.10 rounds to 0 points
and no minimum applies on the fallback branch), even though the refunded
amount and the earned points are both positive. -/
theorem refund_zero_delta_event :
    (RewardsAllocator.allocate_refund_adjustment defaultPolicy "o" "r" "m"
        [{ event_id := "a", member_ref := "m", event_type := "earn", points_delta := 5,
           idempotency_key := some "k", related_ref := some "o",
           related_line_ref := some "L1", created_at := "",
           meta := { eligible_spend := none } }]
        [("L1", 1/10)] "e" "i").map (fun e => e.points_delta) = [0]
    ∧ (0:ℚ) < 1/10
    ∧ 0 < earnedPointsByLine
        [{ event_id := "a", member_ref := "m", event_type := "earn", points_delta := 5,
           idempotency_key := some "k", related_ref := some "o",
           related_line_ref := some "L1", created_at := "",
           meta := { eligible_spend := none } }] "L1" := by
  have hearned : earnedPointsByLine
      [{ event_id := "a", member_ref := "m", event_type := "earn", points_delta := 5,
         idempotency_key := some "k", related_ref := some "o",
         related_line_ref := some "L1", created_at := "",
         meta := { eligible_spend := none } }] "L1" = 5 := by decide
  refine ⟨?_, by norm_num, by rw [hearned]; omega⟩
  unfold RewardsAllocator.allocate_refund_adjustment
  rw [refundGo_cons]
  have hsafe : safeMoney ((1:ℚ)/10) = 1/10 := by
    unfold safeMoney
    rw [if_neg (by norm_num)]
  have hmeta : metaSpendByLine
      [{ event_id := "a", member_ref := "m", event_type := "earn", points_delta := 5,
         idempotency_key := some "k", related_ref := some "o",
         related_line_ref := some "L1", created_at := "",
         meta := { eligible_spend := none } }] "L1" = none := by decide
  rw [hsafe, if_neg (by norm_num), hearned, if_neg (by norm_num)]
  have hremove : refundPointsToRemove defaultPolicy
      [{ event_id := "a", member_ref := "m", event_type := "earn", points_delta := 5,
         idempotency_key := some "k", related_ref := some "o",
         related_line_ref := some "L1", created_at := "",
         meta := { eligible_spend := none } }] "L1" (1/10) = 0 := by
    unfold refundPointsToRemove
    rw [hmeta, hearned]
    have hpts : defaultPolicy.points_for_eligible_spend (1/10) = 0 := by
      unfold LoyaltyPolicy.points_for_eligible_spend defaultPolicy defaultPointsRule
      norm_num [roundHalfUp]
    dsimp only
    rw [hpts]
    norm_num
  rw [hremove]
  simp [refundGo, PointsLedger.make_refund_event]

/-! ### Conservation of points in `allocate_for_order` -/

theorem safeMoney_nonneg (v : ℚ) : 0 ≤ safeMoney v := by
  unfold safeMoney
  split_ifs with h
  · exact le_refl 0
  · exact le_of_not_gt h

theorem eligibleByLine_nonneg (order : OrderSnapshot) :
    ∀ x ∈ eligibleByLine order, 0 ≤ x.2 := by
  intro x hx
  unfold eligibleByLine at hx
  rcases List.mem_map.mp hx with ⟨line, _, heq⟩
  by_cases hel : line.eligible_for_points
  · rw [if_pos hel] at heq
    rw [← heq]
    exact safeMoney_nonneg _
  · rw [if_neg hel] at heq
    rw [← heq]

theorem discountGo_nonneg (eligible_total discounts_total : ℚ) :
    ∀ (l : List (OrderLine × ℚ)) (remaining : ℚ), (∀ x ∈ l, 0 ≤ x.2) →
      ∀ x ∈ discountGo eligible_total discounts_total l remaining, 0 ≤ x.2 := by
  intro l
  induction l with
  | nil => intro remaining _ x hx; exact absurd hx (by simp [discountGo])
  | cons hd rest ih =>
    obtain ⟨line, amt⟩ := hd
    intro remaining hnn x hx
    rw [discountGo] at hx
    by_cases hamt : amt ≤ 0
    · rw [if_pos hamt] at hx
      rcases List.mem_cons.mp hx with rfl | hx2
      · exact hnn _ (List.mem_cons_self _ _)
      · exact ih _ (fun y hy => hnn y (List.mem_cons_of_mem _ hy)) x hx2
    · rw [if_neg hamt] at hx
      rcases List.mem_cons.mp hx with rfl | hx2
      · dsimp only
        split_ifs
        all_goals first
        | exact le_refl 0
        | linarith
      · exact ih _ (fun y hy => hnn y (List.mem_cons_of_mem _ hy)) x hx2

theorem discountedEligible_nonneg (order : OrderSnapshot) :
    ∀ x ∈ discountedEligible order, 0 ≤ x.2 := by
  intro x hx
  unfold discountedEligible at hx
  by_cases hc : 0 < safeMoney order.discounts_total ∧ 0 < amountsTotal (eligibleByLine order)
  · rw [if_pos hc] at hx
    unfold applyProportionalDiscounts at hx
    by_cases hd : safeMoney order.discounts_total ≤ 0 ∨ amountsTotal (eligibleByLine order) ≤ 0
    · rw [if_pos hd] at hx
      exact eligibleByLine_nonneg order x hx
    · rw [if_neg hd] at hx
      exact discountGo_nonneg _ _ _ _ (eligibleByLine_nonneg order) x hx
  · rw [if_neg hc] at hx
    exact eligibleByLine_nonneg order x hx

theorem amountsTotal_nil : amountsTotal [] = 0 := rfl

theorem amountsTotal_cons (x : OrderLine × ℚ) (l : List (OrderLine × ℚ)) :
    amountsTotal (x :: l) = x.2 + amountsTotal l := by
  unfold amountsTotal
  rw [List.map_cons, List.sum_cons]

/-- If no eligible spend is positive, the total is at most 0 — so a positive
total guarantees a nonempty list. -/
theorem amountsTotal_pos_ne_nil {l : List (OrderLine × ℚ)}
    (h : 0 < amountsTotal l) : l ≠ [] := by
  intro hnil
  rw [hnil, amountsTotal_nil] at h
  exact lt_irrefl 0 h

/-- Per-entry facts about the floor allocation: the floored share is
non-negative and the fractional remainder lies in `[0, 1)`. -/
theorem allocInit_entry_facts (eligible_total : ℚ) (pts_total : ℤ)
    (hT : 0 < eligible_total) (hN : 0 ≤ pts_total) :
    ∀ (l : List (OrderLine × ℚ)), (∀ x ∈ l, 0 ≤ x.2) →
      ∀ y ∈ allocInit eligible_total pts_total l,
        0 ≤ y.2.1 ∧ 0 ≤ y.2.2 ∧ y.2.2 < 1 := by
  intro l hnn y hy
  unfold allocInit at hy
  rcases List.mem_map.mp hy with ⟨x, hx, heq⟩
  by_cases hamt : x.2 ≤ 0
  · rw [if_pos hamt] at heq
    rw [← heq]
    norm_num
  · rw [if_neg hamt] at heq
    have hraw : 0 ≤ (x.2 / eligible_total) * (pts_total : ℚ) := by
      apply mul_nonneg
      · exact div_nonneg (le_of_not_ge (fun hle => hamt hle)) hT.le
      · exact_mod_cast hN
    have htr : truncInt ((x.2 / eligible_total) * (pts_total : ℚ))
        = ⌊(x.2 / eligible_total) * (pts_total : ℚ)⌋ := by
      unfold truncInt
      rw [if_neg (not_lt.mpr hraw)]
    rw [← heq]
    refine ⟨?_, ?_, ?_⟩
    · dsimp only
      rw [htr]
      exact Int.floor_nonneg.mpr hraw
    · dsimp only
      rw [htr]
      have := Int.floor_le ((x.2 / eligible_total) * (pts_total : ℚ))
      linarith
    · dsimp only
      rw [htr]
      have := Int.lt_floor_add_one ((x.2 / eligible_total) * (pts_total : ℚ))
      linarith

/-- The floors plus fractional remainders of the allocation sum to the
proportional total. -/
theorem allocInit_sum (eligible_total : ℚ) (pts_total : ℤ) (hT : 0 < eligible_total) :
    ∀ (l : List (OrderLine × ℚ)), (∀ x ∈ l, 0 ≤ x.2) →
      ((allocInit eligible_total pts_total l).map
          (fun y => (y.2.1 : ℚ) + y.2.2)).sum
        = amountsTotal l / eligible_total * (pts_total : ℚ) := by
  intro l
  induction l with
  | nil =>
    intro _
    rw [amountsTotal_nil]
    simp [allocInit]
  | cons x rest ih =>
    intro hnn
    unfold allocInit
    rw [List.map_cons, List.map_cons, List.sum_cons]
    rw [show List.map (fun y => ((y.2.1 : ℚ) + y.2.2))
        (List.map (fun x => if x.2 ≤ 0 then (x.1, (0:ℤ), (0:ℚ))
          else ((x.1, truncInt ((x.2 / eligible_total) * (pts_total : ℚ)),
            (x.2 / eligible_total) * (pts_total : ℚ)
              - (truncInt ((x.2 / eligible_total) * (pts_total : ℚ)) : ℚ)))) rest)
        = List.map (fun y => ((y.2.1 : ℚ) + y.2.2))
            (allocInit eligible_total pts_total rest) from rfl]
    rw [ih (fun y hy => hnn y (List.mem_cons_of_mem _ hy)), amountsTotal_cons]
    by_cases hamt : x.2 ≤ 0
    · have hx0 : x.2 = 0 := le_antisymm hamt (hnn x (List.mem_cons_self _ _))
      rw [if_pos hamt, hx0]
      push_cast
      ring
    · rw [if_neg hamt]
      dsimp only
      field_simp
      ring

/-- Sum of a list of rationals each below 1 is at most the length, strictly
below it when the list is nonempty. -/
theorem sum_lt_length (qs : List ℚ) (h : ∀ q ∈ qs, q < 1) :
    qs.sum ≤ qs.length ∧ (qs ≠ [] → qs.sum < qs.length) := by
  induction qs with
  | nil => simp
  | cons q rest ih =>
    have hq := h q (List.mem_cons_self _ _)
    have hrest := ih fun x hx => h x (List.mem_cons_of_mem _ hx)
    rw [List.sum_cons, List.length_cons]
    push_cast
    constructor
    · linarith [hrest.1]
    · intro _
      linarith [hrest.1]

theorem bumpFirst_sum :
    ∀ (k : ℕ) (l : List (OrderLine × ℤ × ℚ)),
      ((bumpFirst k l).map (fun y => y.2.1)).sum
        = ((l.map (fun y => y.2.1)).sum) + ((min k l.length : ℕ) : ℤ) := by
  intro k
  induction k with
  | zero => intro l; simp [bumpFirst]
  | succ k ih =>
    intro l
    cases l with
    | nil => simp [bumpFirst]
    | cons x rest =>
      rw [show bumpFirst (k + 1) (x :: rest)
          = (x.1, x.2.1 + 1, x.2.2) :: bumpFirst k rest from rfl]
      rw [List.map_cons, List.sum_cons, List.map_cons, List.sum_cons, ih rest]
      have hmin : min (k + 1) (x :: rest).length = min k rest.length + 1 := by
        rw [List.length_cons]
        omega
      rw [hmin]
      push_cast
      ring

theorem bumpFirst_nonneg (k : ℕ) (l : List (OrderLine × ℤ × ℚ))
    (h : ∀ y ∈ l, 0 ≤ y.2.1) : ∀ y ∈ bumpFirst k l, 0 ≤ y.2.1 := by
  induction k generalizing l with
  | zero => simpa [bumpFirst] using h
  | succ k ih =>
    cases l with
    | nil => simp [bumpFirst]
    | cons x rest =>
      intro y hy
      rw [show bumpFirst (k + 1) (x :: rest)
          = (x.1, x.2.1 + 1, x.2.2) :: bumpFirst k rest from rfl] at hy
      rcases List.mem_cons.mp hy with rfl | hy2
      · have := h x (List.mem_cons_self _ _)
        dsimp only
        omega
      · exact ih rest (fun z hz => h z (List.mem_cons_of_mem _ hz)) y hy2

/-- Casting an integer-valued list sum into ℚ. -/
theorem sum_int_cast (l : List (OrderLine × ℤ × ℚ)) :
    (((l.map (fun y => y.2.1)).sum : ℤ) : ℚ) = (l.map (fun y => (y.2.1 : ℚ))).sum := by
  induction l with
  | nil => simp
  | cons x rest ih =>
    rw [List.map_cons, List.sum_cons, List.map_cons, List.sum_cons, Int.cast_add, ih]

theorem sum_split_add (l : List (OrderLine × ℤ × ℚ)) :
    (l.map (fun y => (y.2.1 : ℚ) + y.2.2)).sum
      = (l.map (fun y => (y.2.1 : ℚ))).sum + (l.map (fun y => y.2.2)).sum := by
  induction l with
  | nil => simp
  | cons x rest ih =>
    rw [List.map_cons, List.sum_cons, List.map_cons, List.sum_cons,
      List.map_cons, List.sum_cons, ih]
    ring

/-- With a positive points total and positive eligible spend, the floor +
largest-remainder distribution hands out exactly the points total. -/
theorem allocatePointsToLines_sum (l : List (OrderLine × ℚ)) (N : ℤ)
    (hnn : ∀ x ∈ l, 0 ≤ x.2) (hNpos : 0 < N) (hT : 0 < amountsTotal l) :
    ((allocatePointsToLines l N).map (fun x => x.2)).sum = N := by
  unfold allocatePointsToLines
  dsimp only
  rw [show max 0 N = N from max_eq_right hNpos.le]
  rw [if_neg (by omega : ¬ N = 0), if_neg (not_le.mpr hT)]
  set A := allocInit (amountsTotal l) N l with hA
  set S := (A.map (fun y => y.2.1)).sum with hS
  have hfacts := allocInit_entry_facts (amountsTotal l) N hT hNpos.le l hnn
  have hsum0 : (A.map (fun y => (y.2.1 : ℚ) + y.2.2)).sum
      = amountsTotal l / amountsTotal l * (N : ℚ) :=
    allocInit_sum (amountsTotal l) N hT l hnn
  rw [div_self (ne_of_gt hT), one_mul] at hsum0
  rw [sum_split_add] at hsum0
  have hcast : ((S : ℤ) : ℚ) = (A.map (fun y => (y.2.1 : ℚ))).sum := sum_int_cast A
  have hfrac_eq : (A.map (fun y => y.2.2)).sum = (N : ℚ) - (S : ℚ) := by
    rw [← hcast] at hsum0
    linarith
  have hfrac_nonneg : 0 ≤ (A.map (fun y => y.2.2)).sum := by
    apply List.sum_nonneg
    intro q hq
    rcases List.mem_map.mp hq with ⟨y, hy, rfl⟩
    exact (hfacts y hy).2.1
  have hlen : (A.map (fun y => y.2.2)).sum ≤ ((A.map (fun y => y.2.2)).length : ℚ)
      ∧ ((A.map (fun y => y.2.2)) ≠ [] →
        (A.map (fun y => y.2.2)).sum < ((A.map (fun y => y.2.2)).length : ℚ)) := by
    apply sum_lt_length
    intro q hq
    rcases List.mem_map.mp hq with ⟨y, hy, rfl⟩
    exact (hfacts y hy).2.2
  have hAne : A ≠ [] := by
    intro habs
    have hl : l ≠ [] := amountsTotal_pos_ne_nil hT
    rcases l with _ | ⟨x, rest⟩
    · exact hl rfl
    · rw [hA] at habs
      exact absurd habs (by simp [allocInit])
  have hRnn : 0 ≤ N - S := by
    have : (0 : ℚ) ≤ (N : ℚ) - (S : ℚ) := hfrac_eq ▸ hfrac_nonneg
    have := sub_nonneg.mp this
    exact_mod_cast sub_nonneg.mpr this
  have hRlt : N - S < (A.length : ℤ) := by
    have hne : (A.map (fun y => y.2.2)) ≠ [] := by
      intro habs
      exact hAne (List.map_eq_nil_iff.mp habs)
    have hlt := hlen.2 hne
    rw [hfrac_eq, List.length_map] at hlt
    exact_mod_cast hlt
  by_cases hR : 0 < N - S
  · rw [if_pos hR]
    have hperm : List.Perm (List.insertionSort fracGE A) A :=
      List.perm_insertionSort fracGE A
    have hsortlen : (List.insertionSort fracGE A).length = A.length := hperm.length_eq
    have hmin : min (N - S).toNat (List.insertionSort fracGE A).length = (N - S).toNat := by
      rw [hsortlen]
      omega
    rw [List.map_map]
    have hcomp : ((fun x : OrderLine × ℤ => x.2) ∘ fun x : OrderLine × ℤ × ℚ => (x.1, x.2.1))
        = fun y : OrderLine × ℤ × ℚ => y.2.1 := rfl
    rw [hcomp, bumpFirst_sum, hmin]
    have hsorteq : ((List.insertionSort fracGE A).map (fun y => y.2.1)).sum = S :=
      (hperm.map (fun y => y.2.1)).sum_eq
    rw [hsorteq]
    omega
  · rw [if_neg hR]
    rw [List.map_map]
    have hcomp : ((fun x : OrderLine × ℤ => x.2) ∘ fun x : OrderLine × ℤ × ℚ => (x.1, x.2.1))
        = fun y : OrderLine × ℤ × ℚ => y.2.1 := rfl
    rw [hcomp]
    omega

theorem allocatePointsToLines_nonneg (l : List (OrderLine × ℚ)) (N : ℤ)
    (hnn : ∀ x ∈ l, 0 ≤ x.2) :
    ∀ x ∈ allocatePointsToLines l N, 0 ≤ x.2 := by
  intro x hx
  unfold allocatePointsToLines at hx
  dsimp only at hx
  by_cases h1 : max 0 N = 0
  · rw [if_pos h1] at hx
    rcases List.mem_map.mp hx with ⟨y, _, rfl⟩
    exact le_refl 0
  · rw [if_neg h1] at hx
    by_cases h2 : amountsTotal l ≤ 0
    · rw [if_pos h2] at hx
      rcases List.mem_map.mp hx with ⟨y, _, rfl⟩
      exact le_refl 0
    · rw [if_neg h2] at hx
      have hT : 0 < amountsTotal l := not_le.mp h2
      have hN : 0 ≤ max 0 N := le_max_left 0 N
      have hfacts := allocInit_entry_facts (amountsTotal l) (max 0 N) hT hN l hnn
      have hperm : List.Perm
          (List.insertionSort fracGE (allocInit (amountsTotal l) (max 0 N) l))
          (allocInit (amountsTotal l) (max 0 N) l) :=
        List.perm_insertionSort fracGE _
      by_cases h3 : 0 < max 0 N - (((allocInit (amountsTotal l) (max 0 N) l).map
          (fun y => y.2.1)).sum)
      · rw [if_pos h3] at hx
        rcases List.mem_map.mp hx with ⟨y, hy, rfl⟩
        exact bumpFirst_nonneg _ _
          (fun z hz => (hfacts z (hperm.mem_iff.mp hz)).1) y hy
      · rw [if_neg h3] at hx
        rcases List.mem_map.mp hx with ⟨y, hy, rfl⟩
        exact (hfacts y hy).1

/-- The per-line earn events of `allocate_for_order` carry exactly the
per-line points: lines with non-positive points are skipped (their points
are 0) and `make_earn_event` stores `max 0 pts = pts`. -/
theorem events_delta_sum (eidPre idemPre oid member : String)
    (ebl : List (OrderLine × ℚ)) (l : List (OrderLine × ℤ))
    (hnn : ∀ x ∈ l, 0 ≤ x.2) :
    ((l.filterMap fun x =>
        if x.2 ≤ 0 then none
        else some (PointsLedger.make_earn_event
          (eidPre ++ ":" ++ oid ++ ":" ++ x.1.line_id) member x.2
          (idemPre ++ ":" ++ oid ++ ":" ++ x.1.line_id) oid (some x.1.line_id)
          { eligible_spend := some (q2 (lineEligibleAmount ebl x.1.line_id)) })).map
      (fun e => e.points_delta)).sum
    = (l.map (fun x => x.2)).sum := by
  induction l with
  | nil => simp
  | cons x rest ih =>
    have hx := hnn x (List.mem_cons_self _ _)
    have hrest := ih fun y hy => hnn y (List.mem_cons_of_mem _ hy)
    rw [List.filterMap_cons, List.map_cons, List.sum_cons]
    by_cases h : x.2 ≤ 0
    · rw [if_pos h, hrest]
      have : x.2 = 0 := le_antisymm h hx
      omega
    · rw [if_neg h, List.map_cons, List.sum_cons, hrest]
      simp only [PointsLedger.make_earn_event]
      rw [max_eq_right hx]

theorem points_for_eligible_spend_of_nonpos (p : LoyaltyPolicy) (q : ℚ) (h : q ≤ 0) :
    p.points_for_eligible_spend q = 0 := by
  unfold LoyaltyPolicy.points_for_eligible_spend
  rw [if_pos h]

theorem allocate_for_order_events (policy : LoyaltyPolicy) (order : OrderSnapshot)
    (eidPre idemPre : String) :
    (RewardsAllocator.allocate_for_order policy order eidPre idemPre).events
      = (allocatePointsToLines (discountedEligible order)
          (policy.points_for_eligible_spend
            (amountsTotal (discountedEligible order)))).filterMap
          (fun x => if x.2 ≤ 0 then none
            else some (PointsLedger.make_earn_event
              (eidPre ++ ":" ++ order.order_id ++ ":" ++ x.1.line_id) order.member_ref x.2
              (idemPre ++ ":" ++ order.order_id ++ ":" ++ x.1.line_id) order.order_id
              (some x.1.line_id)
              { eligible_spend := some (q2 (lineEligibleAmount
                  (discountedEligible order) x.1.line_id)) })) := rfl

/-- Claim C1: conservation of points.  The deltas of the emitted earn events
sum exactly to `points_awarded`, and `points_awarded` is
`points_for_eligible_spend` of the total eligible spend after discount
proration — the floor + largest-remainder distribution never drifts. -/
theorem allocate_for_order_conservation (policy : LoyaltyPolicy)
    (order : OrderSnapshot) (eidPre idemPre : String) :
    (((RewardsAllocator.allocate_for_order policy order eidPre idemPre).events.map
        (fun e => e.points_delta)).sum
      = (RewardsAllocator.allocate_for_order policy order eidPre idemPre).points_awarded)
    ∧ (RewardsAllocator.allocate_for_order policy order eidPre idemPre).points_awarded
      = policy.points_for_eligible_spend (amountsTotal (discountedEligible order)) := by
  refine ⟨?_, rfl⟩
  have hnn := discountedEligible_nonneg order
  have hplnn := allocatePointsToLines_nonneg (discountedEligible order)
    (policy.points_for_eligible_spend (amountsTotal (discountedEligible order))) hnn
  rw [allocate_for_order_events,
    show (RewardsAllocator.allocate_for_order policy order eidPre idemPre).points_awarded
      = policy.points_for_eligible_spend (amountsTotal (discountedEligible order)) from rfl]
  rw [events_delta_sum eidPre idemPre order.order_id order.member_ref
    (discountedEligible order) _ hplnn]
  by_cases hN : policy.points_for_eligible_spend (amountsTotal (discountedEligible order)) = 0
  · rw [hN]
    unfold allocatePointsToLines
    dsimp only
    rw [if_pos (by simp : max 0 (0:ℤ) = 0), List.map_map]
    have hcomp : ((fun x : OrderLine × ℤ => x.2) ∘ fun x : OrderLine × ℚ => (x.1, (0:ℤ)))
        = fun _ : OrderLine × ℚ => (0 : ℤ) := rfl
    rw [hcomp]
    simp
  · have hNpos : 0 < policy.points_for_eligible_spend
        (amountsTotal (discountedEligible order)) := by
      have := points_for_eligible_spend_nonneg policy
        (amountsTotal (discountedEligible order))
      omega
    have hT : 0 < amountsTotal (discountedEligible order) := by
      by_contra hc
      rw [points_for_eligible_spend_of_nonpos policy _ (not_lt.mp hc)] at hN
      exact hN rfl
    exact allocatePointsToLines_sum _ _ hnn hNpos hT

/-! ## Cost Model and Pricing Engine (`cost_model.py`, `pricing_engine.py`) -/

/-- `PricingPolicy`: merchant policy knobs. -/
structure PricingPolicy where
  target_net_margin : ℚ
  rewards_rate_of_retail : ℚ
  platform_fee_rate : ℚ
  overhead_rate_of_retail : ℚ
  risk_buffer_rate_of_retail : ℚ
  payment_processor_rate : ℚ
  payment_processor_fixed : ℚ
  tax_rate : ℚ
  shipping_cost_per_order : ℚ
  points_ops_cost_per_order : ℚ
  settlement_cost_per_order : ℚ
  price_rounding : ℚ
  psychological_pricing : Bool
  deriving DecidableEq

/-- `CostInputs`: the economics of a single unit. -/
structure CostInputs where
  retail_price : ℚ
  unit_cost : ℚ
  quantity : ℤ
  payment_processor_rate : ℚ
  payment_processor_fixed : ℚ
  platform_fee_rate : ℚ
  shipping_cost_per_order : ℚ
  tax_rate : ℚ
  rewards_rate_of_retail : ℚ
  points_ops_cost_per_order : ℚ
  settlement_cost_per_order : ℚ
  overhead_rate_of_retail : ℚ
  risk_buffer_rate_of_retail : ℚ
  deriving DecidableEq

/-- `CostBreakdown`: revenue, costs and rollups, quantized as the source
serializes them (`_q2` on currency, `_q4` on the margin). -/
structure CostBreakdown where
  retail_price : ℚ
  gross_revenue : ℚ
  cogs : ℚ
  payment_processor_fee : ℚ
  platform_fee : ℚ
  shipping : ℚ
  taxes : ℚ
  rewards_reserve : ℚ
  overhead_reserve : ℚ
  risk_buffer : ℚ
  points_ops : ℚ
  settlement : ℚ
  total_costs : ℚ
  net_profit : ℚ
  net_margin : ℚ
  quantity : ℤ
  deriving DecidableEq

/-- The arithmetic core of `CostModel.compute` (defined for any quantity;
`compute` guards `quantity < 1`). -/
def CostModel.computeCore (i : CostInputs) : CostBreakdown :=
  let gross_revenue := i.retail_price
  let qq : ℚ := (i.quantity : ℚ)
  let per_unit_processor_fixed := i.payment_processor_fixed / qq
  let per_unit_shipping := i.shipping_cost_per_order / qq
  let per_unit_points_ops := i.points_ops_cost_per_order / qq
  let per_unit_settlement := i.settlement_cost_per_order / qq
  let taxes := gross_revenue * i.tax_rate
  let processor_fee := gross_revenue * i.payment_processor_rate + per_unit_processor_fixed
  let platform_fee := gross_revenue * i.platform_fee_rate
  let rewards_reserve := gross_revenue * i.rewards_rate_of_retail
  let overhead_reserve := gross_revenue * i.overhead_rate_of_retail
  let risk_buffer := gross_revenue * i.risk_buffer_rate_of_retail
  let cogs := i.unit_cost
  let total_costs := cogs + processor_fee + platform_fee + per_unit_shipping + taxes
    + rewards_reserve + overhead_reserve + risk_buffer + per_unit_points_ops
    + per_unit_settlement
  let net_profit := gross_revenue - total_costs
  let net_margin := if 0 < gross_revenue then net_profit / gross_revenue else 0
  { retail_price := q2 i.retail_price
    gross_revenue := q2 gross_revenue
    cogs := q2 cogs
    payment_processor_fee := q2 processor_fee
    platform_fee := q2 platform_fee
    shipping := q2 per_unit_shipping
    taxes := q2 taxes
    rewards_reserve := q2 rewards_reserve
    overhead_reserve := q2 overhead_reserve
    risk_buffer := q2 risk_buffer
    points_ops := q2 per_unit_points_ops
    settlement := q2 per_unit_settlement
    total_costs := q2 total_costs
    net_profit := q2 net_profit
    net_margin := q4 net_margin
    quantity := i.quantity }

/-- `CostModel.compute`: fails with `InvalidInput` when `quantity < 1`. -/
def CostModel.compute (i : CostInputs) : Except String CostBreakdown :=
  if i.quantity < 1 then Except.error "quantity must be >= 1"
  else Except.ok (CostModel.computeCore i)

/-- The `CostInputs` the engine builds (both for the search's `margin_at`
helper and for the final breakdown). -/
def mkCostInputs (unit_cost : ℚ) (quantity : ℤ) (policy : PricingPolicy)
    (price : ℚ) : CostInputs :=
  { retail_price := price
    unit_cost := unit_cost
    quantity := quantity
    payment_processor_rate := policy.payment_processor_rate
    payment_processor_fixed := policy.payment_processor_fixed
    platform_fee_rate := policy.platform_fee_rate
    shipping_cost_per_order := policy.shipping_cost_per_order
    tax_rate := policy.tax_rate
    rewards_rate_of_retail := policy.rewards_rate_of_retail
    points_ops_cost_per_order := policy.points_ops_cost_per_order
    settlement_cost_per_order := policy.settlement_cost_per_order
    overhead_rate_of_retail := policy.overhead_rate_of_retail
    risk_buffer_rate_of_retail := policy.risk_buffer_rate_of_retail }

/-- `margin_at`: the (4-dp-quantized) net margin `CostModel` reports at a
candidate price. -/
def margin_at (unit_cost : ℚ) (quantity : ℤ) (policy : PricingPolicy)
    (price : ℚ) : ℚ :=
  (CostModel.computeCore (mkCostInputs unit_cost quantity policy price)).net_margin

/-- The bound-expansion loop: double `high` (up to the guard) while its
margin is below target. -/
def expandHigh (f : ℚ → ℚ) (target : ℚ) : ℕ → ℚ → ℚ
  | 0, high => high
  | g + 1, high => if f high < target then expandHigh f target g (high * 2) else high

/-- The bisection loop: narrow toward the lowest price whose margin meets
the target, keeping the best (lowest successful) price seen. -/
def bisect (f : ℚ → ℚ) (target : ℚ) : ℕ → ℚ → ℚ → ℚ → ℚ
  | 0, _, _, best => best
  | n + 1, low, high, best =>
    let mid := (low + high) / 2
    if target ≤ f mid then bisect f target n low mid mid
    else bisect f target n mid high best

/-- The starting guess: `unit_cost / (1 - margin)` bumped by 10% when no
`starting_price` is given. -/
def startingPriceOf (unit_cost : ℚ) (policy : PricingPolicy)
    (starting_price : Option ℚ) : ℚ :=
  match starting_price with
  | some s => s
  | none => unit_cost / (1 - policy.target_net_margin) * (11 / 10)

/-- `low = max(0.01, unit_cost)`. -/
def lowBound (unit_cost : ℚ) : ℚ := max (1 / 100) unit_cost

/-- `high = max(starting_price * 5.0, low + 1.00)`. -/
def highStart (unit_cost : ℚ) (policy : PricingPolicy)
    (starting_price : Option ℚ) : ℚ :=
  max (startingPriceOf unit_cost policy starting_price * 5) (lowBound unit_cost + 1)

/-- The upper search bound after at most 8 doublings. -/
def expandedHigh (unit_cost : ℚ) (quantity : ℤ) (policy : PricingPolicy)
    (starting_price : Option ℚ) : ℚ :=
  expandHigh (margin_at unit_cost quantity policy) policy.target_net_margin 8
    (highStart unit_cost policy starting_price)

/-- The unrounded price the binary search settles on (`best` starts at the
expanded `high`). -/
def bestUnrounded (unit_cost : ℚ) (quantity : ℤ) (policy : PricingPolicy)
    (starting_price : Option ℚ) (max_iterations : ℕ) : ℚ :=
  bisect (margin_at unit_cost quantity policy) policy.target_net_margin
    max_iterations (lowBound unit_cost)
    (expandedHigh unit_cost quantity policy starting_price)
    (expandedHigh unit_cost quantity policy starting_price)

/-- `PricingEngine._round_price`.  The source's second
`rounded.quantize(step)` is the identity on an integer multiple of `step`
(already exact at the step's exponent) and is therefore not repeated. -/
def roundPrice (price : ℚ) (policy : PricingPolicy) : ℚ :=
  let step := policy.price_rounding
  if step ≤ 0 then q2 price
  else
    let rounded := (roundHalfUp (price / step) : ℚ) * step
    if policy.psychological_pricing then
      let dollars : ℚ := (roundHalfUp rounded : ℚ)
      let candidate := dollars - 1 / 100
      if 0 < candidate then q2 candidate else q2 rounded
    else q2 rounded

structure PricingResult where
  retail_price : ℚ
  points_awarded : ℤ
  cost_breakdown : CostBreakdown
  deriving DecidableEq

/-- `PricingEngine.recommend_price` (the cost breakdown is kept as a value
rather than the source's stringified dict). -/
def PricingEngine.recommend_price (unit_cost : ℚ) (quantity : ℤ)
    (policy : PricingPolicy) (starting_price : Option ℚ)
    (max_iterations : ℕ) : Except String PricingResult :=
  if quantity < 1 then Except.error "quantity must be >= 1"
  else if unit_cost < 0 then Except.error "unit_cost must be >= 0"
  else if ¬ (0 ≤ policy.target_net_margin ∧ policy.target_net_margin < 1) then
    Except.error "target_net_margin must be between 0 and <1"
  else
    let best := roundPrice
      (bestUnrounded unit_cost quantity policy starting_price max_iterations) policy
    let breakdown := CostModel.computeCore (mkCostInputs unit_cost quantity policy best)
    let points := roundHalfUp (breakdown.rewards_reserve / (1 / 100))
    Except.ok
      { retail_price := q2 best
        points_awarded := points
        cost_breakdown := breakdown }

/-! ### Facts about the pricing search (claim C3) -/

theorem roundHalfUp_le_add_half (q : ℚ) : (roundHalfUp q : ℚ) ≤ q + 1 / 2 := by
  unfold roundHalfUp
  split_ifs with h
  · exact_mod_cast Int.floor_le (q + 1 / 2)
  · push_cast
    have h1 := Int.lt_floor_add_one (-q + 1 / 2)
    linarith

theorem roundHalfUp_ge_sub_half (q : ℚ) : q - 1 / 2 ≤ (roundHalfUp q : ℚ) := by
  unfold roundHalfUp
  split_ifs with h
  · have h1 := Int.lt_floor_add_one (q + 1 / 2)
    push_cast at h1 ⊢
    linarith
  · push_cast
    have h1 := Int.floor_le (-q + 1 / 2)
    linarith

theorem q4_le (x : ℚ) : q4 x ≤ x + 1 / 20000 := by
  unfold q4
  rw [div_le_iff₀ (by norm_num : (0:ℚ) < 10000)]
  have := roundHalfUp_le_add_half (x * 10000)
  linarith

theorem q4_ge (x : ℚ) : x - 1 / 20000 ≤ q4 x := by
  unfold q4
  rw [le_div_iff₀ (by norm_num : (0:ℚ) < 10000)]
  have := roundHalfUp_ge_sub_half (x * 10000)
  linarith

theorem le_q4_of_le (t x : ℚ) (h : t + 1 / 20000 ≤ x) : t ≤ q4 x := by
  have := q4_ge x; linarith

theorem q4_le_of_le (x t : ℚ) (h : x ≤ t - 1 / 20000) : q4 x ≤ t := by
  have := q4_le x; linarith

/-- The margin the cost model reports at a price, written out. -/
theorem margin_at_eq (u : ℚ) (q : ℤ) (pol : PricingPolicy) (p : ℚ) :
    margin_at u q pol p =
      q4 (if 0 < p then
            (p - (u + (p * pol.payment_processor_rate + pol.payment_processor_fixed / (q : ℚ))
              + p * pol.platform_fee_rate + pol.shipping_cost_per_order / (q : ℚ)
              + p * pol.tax_rate + p * pol.rewards_rate_of_retail
              + p * pol.overhead_rate_of_retail + p * pol.risk_buffer_rate_of_retail
              + pol.points_ops_cost_per_order / (q : ℚ)
              + pol.settlement_cost_per_order / (q : ℚ))) / p
          else 0) := rfl

theorem expandHigh_succ (f : ℚ → ℚ) (t : ℚ) (g : ℕ) (high : ℚ) :
    expandHigh f t (g + 1) high
      = if f high < t then expandHigh f t g (high * 2) else high := rfl

theorem bisect_succ (f : ℚ → ℚ) (t : ℚ) (n : ℕ) (low high best : ℚ) :
    bisect f t (n + 1) low high best
      = if t ≤ f ((low + high) / 2) then bisect f t n low ((low + high) / 2) ((low + high) / 2)
        else bisect f t n ((low + high) / 2) high best := rfl

/-- The bisection only ever replaces `best` by a midpoint whose margin meets
the target, so meeting the target is preserved. -/
theorem bisect_preserves (f : ℚ → ℚ) (t : ℚ) (n : ℕ) :
    ∀ low high best : ℚ, t ≤ f best → t ≤ f (bisect f t n low high best) := by
  induction n with
  | zero => intro low high best h; exact h
  | succ n ih =>
    intro low high best h
    rw [bisect_succ]
    split_ifs with hm
    · exact ih _ _ _ hm
    · exact ih _ _ _ h

/-- The default policy of `PricingPolicy` (target margin 35%). -/
def pol35 : PricingPolicy :=
  { target_net_margin := 35 / 100
    rewards_rate_of_retail := 2 / 100
    platform_fee_rate := 2 / 100
    overhead_rate_of_retail := 0
    risk_buffer_rate_of_retail := 0
    payment_processor_rate := 29 / 1000
    payment_processor_fixed := 3 / 10
    tax_rate := 0
    shipping_cost_per_order := 0
    points_ops_cost_per_order := 0
    settlement_cost_per_order := 0
    price_rounding := 1 / 100
    psychological_pricing := false }

/-- The default policy with the target margin raised to 95%. -/
def pol95 : PricingPolicy :=
  { target_net_margin := 95 / 100
    rewards_rate_of_retail := 2 / 100
    platform_fee_rate := 2 / 100
    overhead_rate_of_retail := 0
    risk_buffer_rate_of_retail := 0
    payment_processor_rate := 29 / 1000
    payment_processor_fixed := 3 / 10
    tax_rate := 0
    shipping_cost_per_order := 0
    points_ops_cost_per_order := 0
    settlement_cost_per_order := 0
    price_rounding := 1 / 100
    psychological_pricing := false }

/-- At unit cost 5, quantity 1 and the 95%-target policy, no price at all
reaches a margin of 0.94: the percentage costs alone eat 6.9% of retail, so
the raw margin is below 0.931 everywhere and 4-dp rounding adds at most
1/20000. -/
theorem margin_at_pol95_bound (price : ℚ) : margin_at 5 1 pol95 price ≤ 94 / 100 := by
  rw [margin_at_eq]
  apply q4_le_of_le
  split_ifs with hp
  · rw [div_le_iff₀ hp]
    simp only [pol95]
    push_cast
    nlinarith [hp]
  · norm_num

/-- C3 (amended): the binary search's margin guarantee holds whenever the
expanded upper bracket actually attains the target margin: then the unrounded
solver price `bestUnrounded` satisfies
`margin_at(bestUnrounded) >= target_net_margin` (with no epsilon needed).
Without that bracket hypothesis the guarantee fails — see the
counterexample, where a feasible input (unit_cost 5, quantity 1, target 0.95
in [0,1)) yields a final margin more than 0.01 below target even before and
after rounding. -/
theorem recommend_price_margin_guarantee (unit_cost : ℚ) (quantity : ℤ)
    (policy : PricingPolicy) (starting_price : Option ℚ) (max_iterations : ℕ)
    (h : policy.target_net_margin ≤
      margin_at unit_cost quantity policy
        (expandedHigh unit_cost quantity policy starting_price)) :
    policy.target_net_margin ≤
      margin_at unit_cost quantity policy
        (bestUnrounded unit_cost quantity policy starting_price max_iterations) := by
  exact bisect_preserves _ _ _ _ _ _ h

/-- Witness: at unit cost 5, quantity 1, the default policy (target 0.35)
and 60 iterations, the initial bracket already meets the target and the
solver price keeps the margin at or above 0.35. -/
theorem recommend_price_margin_guarantee_witness :
    pol35.target_net_margin ≤
      margin_at 5 1 pol35 (expandedHigh 5 1 pol35 none)
    ∧ pol35.target_net_margin ≤
      margin_at 5 1 pol35 (bestUnrounded 5 1 pol35 none 60) := by
  have hge : pol35.target_net_margin ≤ margin_at 5 1 pol35 (550 / 13) := by
    rw [margin_at_eq, if_pos (by norm_num : (0:ℚ) < 550 / 13)]
    apply le_q4_of_le
    simp only [pol35]
    push_cast
    norm_num
  have h1 : startingPriceOf 5 pol35 none = 110 / 13 := by
    unfold startingPriceOf
    simp only [pol35]
    norm_num
  have h2 : lowBound (5 : ℚ) = 5 := by
    unfold lowBound
    rw [max_eq_right (by norm_num : (1 / 100 : ℚ) ≤ 5)]
  have hhs : highStart 5 pol35 none = 550 / 13 := by
    unfold highStart
    rw [h1, h2, max_eq_left (by norm_num : (5 : ℚ) + 1 ≤ 110 / 13 * 5)]
    norm_num
  have hexp : expandedHigh 5 1 pol35 none = 550 / 13 := by
    unfold expandedHigh
    rw [hhs, show (8 : ℕ) = 7 + 1 from rfl, expandHigh_succ, if_neg (not_lt.mpr hge)]
  have hkey : pol35.target_net_margin ≤
      margin_at 5 1 pol35 (expandedHigh 5 1 pol35 none) := by
    rw [hexp]; exact hge
  exact ⟨hkey, recommend_price_margin_guarantee 5 1 pol35 none 60 hkey⟩

/-- C3 counterexample: with unit_cost 5 >= 0, quantity 1 >= 1 and a target
margin of 0.95 in [0,1) (all admissible by the claim), the margin of the
unrounded solver price and of the rounded retail price each fall short of
the target by more than 0.01: no "epsilon" or "small tolerance" in the
claim's sense is met, because no price at all attains the target here. -/
theorem recommend_price_margin_failure :
    (0 : ℚ) ≤ 5 ∧ (1 : ℤ) ≥ 1
    ∧ 0 ≤ pol95.target_net_margin ∧ pol95.target_net_margin < 1
    ∧ margin_at 5 1 pol95 (bestUnrounded 5 1 pol95 none 60)
        ≤ pol95.target_net_margin - 1 / 100
    ∧ margin_at 5 1 pol95 (roundPrice (bestUnrounded 5 1 pol95 none 60) pol95)
        ≤ pol95.target_net_margin - 1 / 100 := by
  have htn : pol95.target_net_margin = 95 / 100 := rfl
  refine ⟨by norm_num, by norm_num, by rw [htn]; norm_num, by rw [htn]; norm_num, ?_, ?_⟩
  · have := margin_at_pol95_bound (bestUnrounded 5 1 pol95 none 60)
    rw [htn]; linarith
  · have := margin_at_pol95_bound (roundPrice (bestUnrounded 5 1 pol95 none 60) pol95)
    rw [htn]; linarith

end Exclusivity
